import Mathlib

/-!
Verification of the window/cursor/viewport core of the `bed` binary editor
(`window/window.go`).  The Go code is shallowly embedded: every method of the
`window` struct becomes a Lean function on an explicit state record, Go `int64`
arithmetic becomes `Int` arithmetic (Go `/` and `%` truncate toward zero, which
is `Int.tdiv` / `Int.tmod`), and the byte content of the buffer becomes a
`List Int` of byte values.  External collaborators (the buffer storage engine
and the undo history, which are separate packages of the repository) are
modelled from the specification's interface contract.
-/

namespace Bed

/-- Go integer division (`/` on `int64`): truncation toward zero. -/
def godiv (a b : Int) : Int := Int.tdiv a b

/-- Go integer remainder (`%` on `int64`): remainder of truncated division. -/
def gomod (a b : Int) : Int := Int.tmod a b

/-- Modelled from the spec: the content handle's random-access read.  A read at
index `i` yields the stored byte when `i` is inside the content and `0`
otherwise (Go `ReadAt` fills the rest of the destination slice with zero bytes
and reports `io.EOF`, which the window tolerates). -/
def readByte (c : List Int) (i : Int) : Int :=
  if h : 0 ≤ i ∧ i.toNat < c.length then c.get ⟨i.toNat, h.2⟩ else 0

/-- Modelled from the spec: `readBytes(offset, len)` of the window.  It fails
only when the offset is negative (a real I/O failure); end-of-content is a
tolerated partial read and the remaining bytes of the slice are zero. -/
def goReadBytes (c : List Int) (off : Int) (n : Nat) : Option (List Int) :=
  if off < 0 then none
  else some ((List.range n).map fun (i : Nat) => readByte c (off + (i : Int)))

/-- Modelled from the spec: point replace `Replace(offset, byte)` of the content
handle; replacing at the current end of content extends it by one byte (this is
how the window commits the byte of an append/extend virtual slot). -/
def goSet (c : List Int) (i : Int) (b : Int) : List Int :=
  if i < 0 then c
  else if i.toNat < c.length then c.set i.toNat b
  else if i.toNat = c.length then c ++ [b]
  else c

/-- Modelled from the spec: point insert `Insert(offset, byte)` of the content
handle. -/
def goInsertList (c : List Int) (i : Int) (b : Int) : List Int :=
  if i < 0 then c else c.take i.toNat ++ b :: c.drop i.toNat

/-- Modelled from the spec: point delete `Delete(offset)` of the content
handle. -/
def goDeleteList (c : List Int) (i : Int) : List Int :=
  if i < 0 then c
  else if i.toNat < c.length then c.eraseIdx i.toNat
  else c

/-- Modelled from the spec: the History collaborator, an ordered log of
(content, viewport-offset, cursor) checkpoints with an undo/redo cursor. -/
structure History where
  entries : List (List Int × Int × Int)
  index : Nat
  deriving Repr, DecidableEq

/-- Modelled from the spec: `History.Push` appends a checkpoint and moves the
undo cursor to it. -/
def histPush (h : History) (c : List Int) (off cur : Int) : History :=
  { entries := h.entries ++ [(c, off, cur)], index := h.entries.length }

/-- Modelled from the spec: `History.Undo` steps the cursor one checkpoint back
and returns it, or reports exhaustion. -/
def histUndo (h : History) : Option ((List Int × Int × Int) × History) :=
  if h.index = 0 then none
  else match h.entries.get? (h.index - 1) with
    | none => none
    | some cp => some (cp, { h with index := h.index - 1 })

/-- Modelled from the spec: `History.Redo` steps the cursor one checkpoint
forward and returns it, or reports exhaustion. -/
def histRedo (h : History) : Option ((List Int × Int × Int) × History) :=
  match h.entries.get? (h.index + 1) with
  | none => none
  | some cp => some (cp, { h with index := h.index + 1 })

/-- Editor modes (`mode` package): the window compares against Normal, Insert
and Replace. -/
inductive Mode where
  | normal | insert | replace | visual | cmdline
  deriving Repr, DecidableEq

/-- Position variants of the `event` package: `Absolute`, `Relative`, `End`,
`VisualStart`, `VisualEnd`, each carrying an `Offset int64`. -/
inductive Position where
  | absolute (off : Int)
  | relative (off : Int)
  | atEnd (off : Int)
  | visualStart (off : Int)
  | visualEnd (off : Int)
  deriving Repr, DecidableEq

/-- An event range (`event.Range`): optional `From` and `To` positions. -/
structure ERange where
  fromPos : Option Position
  toPos : Option Position
  deriving Repr, DecidableEq

/-- Event types handled by the window's `run` loop, in the order of the
dispatch switch. -/
inductive EType where
  | cursorUp | cursorDown | cursorLeft | cursorRight | cursorPrev | cursorNext
  | cursorHead | cursorEnd | cursorGoto
  | scrollUp | scrollDown
  | pageUp | pageDown | pageUpHalf | pageDownHalf | pageTop | pageEnd
  | jumpTo | jumpBack
  | deleteByte | deletePrevByte | increment | decrement
  | startInsert | startInsertHead | startAppend | startAppendEnd
  | startReplaceByte | startReplace | exitInsert
  | rune | backspace | delete
  | startVisual | switchVisualEnd | exitVisual
  | switchFocus | undo | redo
  | executeSearch | nextSearch | previousSearch
  deriving Repr, DecidableEq

/-- Modelled from the spec: the `event` package numbers the navigation events
contiguously, so the run loop's range test `event.CursorUp <= e.Type &&
e.Type <= event.JumpBack` recognises exactly the navigation commands (cursor
movement, scrolling, paging, jumping). -/
def navRange : EType → Bool
  | .cursorUp | .cursorDown | .cursorLeft | .cursorRight | .cursorPrev
  | .cursorNext | .cursorHead | .cursorEnd | .cursorGoto
  | .scrollUp | .scrollDown
  | .pageUp | .pageDown | .pageUpHalf | .pageDownHalf | .pageTop | .pageEnd
  | .jumpTo | .jumpBack => true
  | _ => false

/-- An event (`event.Event`) as the window consumes it: type, mode at dispatch
time, repeat count, rune, search argument (as its bytes) and optional range. -/
structure Event where
  etype : EType
  mode : Mode := .normal
  count : Int := 0
  rune : Char := ' '
  arg : List Int := []
  range : Option ERange := none
  deriving Repr, DecidableEq

/-- The window state (`window` struct): content handle (`buffer`), change
counter, previous-command-changed flag, history, geometry, viewport offset,
cursor, logical length, jump stack and edit-assembly state. -/
structure WState where
  content : List Int
  changedTick : Nat
  prevChanged : Bool
  hist : History
  height : Int
  width : Int
  offset : Int
  cursor : Int
  length : Int
  stack : List (Int × Int)
  append : Bool
  replaceByte : Bool
  extending : Bool
  pending : Bool
  pendingByte : Int
  visualStart : Int
  focusText : Bool
  deriving Repr, DecidableEq

/-- The inline re-scroll used after downward cursor movement:
`if cursor >= offset+height*width { offset = (cursor-height*width+width)/width*width }`. -/
def scrollDownAdj (s : WState) : WState :=
  if s.offset + s.height * s.width ≤ s.cursor then
    { s with offset := godiv (s.cursor - s.height * s.width + s.width) s.width * s.width }
  else s

/-- The inline re-scroll used after upward cursor movement:
`if cursor < offset { offset = cursor/width*width }`. -/
def scrollUpAdj (s : WState) : WState :=
  if s.cursor < s.offset then
    { s with offset := godiv s.cursor s.width * s.width }
  else s

/-- The collapse of an open append/extend virtual slot, shared tail of
`cursorUp` and `cursorLeft` (`cursorPrev` uses a different guard). -/
def collapseSlotLt (s : WState) : WState :=
  if s.append = true ∧ s.extending = true ∧ s.cursor < s.length - 1 then
    { s with append := false, extending := false,
             length := if 0 < s.length then s.length - 1 else s.length }
  else s

/-- `window.cursorUp`. -/
def cursorUp (s : WState) (count : Int) : WState :=
  let s := { s with
    cursor := s.cursor - min (max count 1) (godiv s.cursor s.width) * s.width }
  let s := scrollUpAdj s
  collapseSlotLt s

/-- `window.cursorDown`. -/
def cursorDown (s : WState) (count : Int) : WState :=
  let rows := godiv (max s.length 1 - 1) s.width - godiv s.cursor s.width
  let d := min (min (max count 1) rows * s.width) (max s.length 1 - 1 - s.cursor)
  let s := { s with cursor := s.cursor + d }
  scrollDownAdj s

/-- `window.cursorLeft`. -/
def cursorLeft (s : WState) (count : Int) : WState :=
  let s := { s with cursor := s.cursor - min (max count 1) (gomod s.cursor s.width) }
  collapseSlotLt s

/-- `window.cursorRight`. -/
def cursorRight (s : WState) (m : Mode) (count : Int) : WState :=
  if m = .normal then
    let d := min (min (max count 1) (s.width - 1 - gomod s.cursor s.width)) (max s.length 1 - 1 - s.cursor)
    { s with cursor := s.cursor + d }
  else if s.extending = false then
    let d := min (min (max count 1) (s.width - 1 - gomod s.cursor s.width)) (s.length - s.cursor)
    let s := { s with cursor := s.cursor + d }
    if s.cursor = s.length then
      { s with append := true, extending := true, length := s.length + 1 }
    else s
  else s

/-- The collapse of an open append/extend virtual slot as `cursorPrev` guards
it (`cursor != length` instead of `cursor < length-1`). -/
def collapseSlotNe (s : WState) : WState :=
  if s.append = true ∧ s.extending = true ∧ s.cursor ≠ s.length then
    { s with append := false, extending := false,
             length := if 0 < s.length then s.length - 1 else s.length }
  else s

/-- `window.cursorPrev`. -/
def cursorPrev (s : WState) (count : Int) : WState :=
  let s := { s with cursor := s.cursor - min (max count 1) s.cursor }
  let s := scrollUpAdj s
  collapseSlotNe s

/-- `window.cursorNext`. -/
def cursorNext (s : WState) (m : Mode) (count : Int) : WState :=
  let s :=
    if m = .normal then
      { s with cursor := s.cursor + min (max count 1) (max s.length 1 - 1 - s.cursor) }
    else if s.extending = false then
      let s := { s with cursor := s.cursor + min (max count 1) (s.length - s.cursor) }
      if s.cursor = s.length then
        { s with append := true, extending := true, length := s.length + 1 }
      else s
    else s
  scrollDownAdj s

/-- `window.cursorHead` (the count is unused by the source). -/
def cursorHead (s : WState) (_count : Int) : WState :=
  { s with cursor := s.cursor - gomod s.cursor s.width }

/-- `window.cursorEnd`. -/
def cursorEnd (s : WState) (count : Int) : WState :=
  let c := min ((godiv s.cursor s.width + max count 1) * s.width - 1) (max s.length 1 - 1)
  let s := { s with cursor := c }
  scrollDownAdj s

/-- `window.positionToOffset`: resolve a `Position` against cursor, length and
visual anchor; the visual variants fail without an active selection. -/
def positionToOffset (s : WState) : Position → Option Int
  | .absolute off => some (max (min off (max s.length 1 - 1)) 0)
  | .relative off =>
      some (s.cursor + max (min off (max s.length 1 - 1 - s.cursor)) (-s.cursor))
  | .atEnd off =>
      some (max s.length 1 - 1 + max (min off 0) (-(max s.length 1 - 1)))
  | .visualStart off =>
      if s.visualStart < 0 then none
      else some (s.visualStart +
        max (min off (max s.length 1 - 1 - s.visualStart)) (-s.visualStart))
  | .visualEnd off =>
      if s.visualStart < 0 then none
      else some (s.cursor + max (min off (max s.length 1 - 1 - s.cursor)) (-s.cursor))

/-- `window.cursorGotoPos`. -/
def cursorGotoPos (s : WState) (pos : Position) : WState :=
  match positionToOffset s pos with
  | none => s
  | some off =>
    let s := { s with cursor := max (min off (max s.length 1 - 1)) 0 }
    if s.cursor < s.offset then
      let o := (max (godiv s.cursor s.width) (godiv s.height 2) - godiv s.height 2) * s.width
      { s with offset := o }
    else if s.offset + s.height * s.width ≤ s.cursor then
      let h := godiv (max s.length 1 + s.width - 1) s.width - s.height
      let o := min (godiv (s.cursor - s.height * s.width + s.width) s.width + godiv s.height 2) h * s.width
      { s with offset := o }
    else s

/-- `window.cursorGoto`: use the range's `To` position, else its `From`. -/
def cursorGoto (s : WState) (e : Event) : WState :=
  match e.range with
  | none => s
  | some r =>
    match r.toPos with
    | some p => cursorGotoPos s p
    | none =>
      match r.fromPos with
      | some p => cursorGotoPos s p
      | none => s

/-- `window.scrollUp`. -/
def scrollUp (s : WState) (count : Int) : WState :=
  let s := { s with offset := s.offset - min (max count 1) (godiv s.offset s.width) * s.width }
  if s.offset + s.height * s.width ≤ s.cursor then
    let c := s.cursor - (godiv (s.cursor - s.offset - s.height * s.width) s.width + 1) * s.width
    { s with cursor := c }
  else s

/-- `window.scrollDown`. -/
def scrollDown (s : WState) (count : Int) : WState :=
  let h := max (godiv (max s.length 1 + s.width - 1) s.width - s.height) 0
  let s := { s with offset := s.offset + min (max count 1) (h - godiv s.offset s.width) * s.width }
  if s.cursor < s.offset then
    let c := s.cursor + min (godiv (s.offset - s.cursor + s.width - 1) s.width * s.width) (max s.length 1 - 1 - s.cursor)
    { s with cursor := c }
  else s

/-- `window.getPageJump`: the source computes
`int64(float64(height) * 0.95)` in binary floating point; for every height a
terminal can take (far below `2^49` rows) this equals `⌊height * 19 / 20⌋`,
which is how it is embedded here. -/
def getPageJump (s : WState) : Int := godiv (s.height * 19) 20

/-- `window.pageUp`. -/
def pageUp (s : WState) : WState :=
  let s := { s with offset := max (s.offset - getPageJump s * s.width) 0 }
  if s.offset = 0 then { s with cursor := 0 }
  else if s.offset + s.height * s.width ≤ s.cursor then
    { s with cursor := s.offset + (s.height - 1) * s.width }
  else s

/-- `window.pageDown`. -/
def pageDown (s : WState) : WState :=
  let off := max ((godiv (s.length + s.width - 1) s.width - s.height) * s.width) 0
  let s := { s with offset := min (s.offset + getPageJump s * s.width) off }
  if s.cursor < s.offset then { s with cursor := s.offset }
  else if s.offset = off then
    { s with cursor := (godiv (max s.length 1 + s.width - 1) s.width - 1) * s.width }
  else s

/-- `window.pageUpHalf`. -/
def pageUpHalf (s : WState) : WState :=
  let s := { s with offset := max (s.offset - max (godiv s.height 2) 1 * s.width) 0 }
  if s.offset = 0 then { s with cursor := 0 }
  else if s.offset + s.height * s.width ≤ s.cursor then
    { s with cursor := s.offset + (s.height - 1) * s.width }
  else s

/-- `window.pageDownHalf`. -/
def pageDownHalf (s : WState) : WState :=
  let off := max ((godiv (s.length + s.width - 1) s.width - s.height) * s.width) 0
  let s := { s with offset := min (s.offset + max (godiv s.height 2) 1 * s.width) off }
  if s.cursor < s.offset then { s with cursor := s.offset }
  else if s.offset = off then
    { s with cursor := (godiv (max s.length 1 + s.width - 1) s.width - 1) * s.width }
  else s

/-- `window.pageTop`. -/
def pageTop (s : WState) : WState := { s with offset := 0, cursor := 0 }

/-- `window.pageEnd`. -/
def pageEnd (s : WState) : WState :=
  { s with
    offset := max ((godiv (s.length + s.width - 1) s.width - s.height) * s.width) 0,
    cursor := (godiv (max s.length 1 + s.width - 1) s.width - 1) * s.width }

/-- `isDigit`: an ASCII decimal digit byte. -/
def isDigitB (b : Int) : Bool := decide (48 ≤ b ∧ b ≤ 57)

/-- `isWhite`: NUL, tab, newline, carriage return or space. -/
def isWhiteB (b : Int) : Bool := b == 0 || b == 9 || b == 10 || b == 13 || b == 32

/-- Decimal value of a digit-byte run (used by `strconv.ParseInt`). -/
def decVal (ds : List Int) : Int := ds.foldl (fun a d => a * 10 + (d - 48)) 0

/-- `strconv.ParseInt(…, 10, 64)` on a nonempty run of decimal digits: the
value, clamped to `MaxInt64` on overflow (the clamped value is returned
together with a range error, and `jumpTo` ignores the error). -/
def parseIntClamp (ds : List Int) : Int := min (decVal ds) (2 ^ 63 - 1)

/-- The scanning part of `window.jumpTo`: read 100 bytes around the cursor,
skip whitespace/NUL from the middle, locate the surrounding digit run and
parse it; `none` when the scan or the boundary checks fail. -/
def jumpScan (s : WState) : Option Int :=
  let base := max (s.cursor - 50) 0
  match goReadBytes s.content base 100 with
  | none => none
  | some bs =>
    let i0 := 50 + ((bs.drop 50).takeWhile isWhiteB).length
    if i0 = 100 ∨ ¬ isDigitB (bs.getD i0 0) then none
    else
      let i1 := i0 - ((bs.take i0).reverse.takeWhile isDigitB).length
      let j := i1 + ((bs.drop i1).takeWhile isDigitB).length
      if j = 100 then none
      else some (parseIntClamp ((bs.drop i1).take (j - i1)))

/-- `window.jumpTo`. -/
def jumpTo (s : WState) : WState :=
  match jumpScan s with
  | none => s
  | some v =>
    if v ≤ 0 ∨ s.length ≤ v then s
    else
      { s with stack := s.stack ++ [(s.cursor, s.offset)],
               cursor := v,
               offset := max (v - gomod v s.width - max (godiv s.height 3) 0 * s.width) 0 }

/-- `window.jumpBack`. -/
def jumpBack (s : WState) : WState :=
  match s.stack.getLast? with
  | none => s
  | some p => { s with cursor := p.1, offset := p.2, stack := s.stack.dropLast }

/-- `window.delete` (the method): point delete plus change-counter bump. -/
def wdelete (s : WState) (off : Int) : WState :=
  { s with content := goDeleteList s.content off, changedTick := s.changedTick + 1 }

/-- `window.insert` (the method): point insert plus change-counter bump. -/
def winsert (s : WState) (off b : Int) : WState :=
  { s with content := goInsertList s.content off b, changedTick := s.changedTick + 1 }

/-- `window.replace` (the method): point replace plus change-counter bump. -/
def wreplace (s : WState) (off b : Int) : WState :=
  { s with content := goSet s.content off b, changedTick := s.changedTick + 1 }

/-- Loop body of `window.deleteByte`, iterated `cnt` times. -/
def deleteByteLoop : Nat → WState → WState
  | 0, s => s
  | n + 1, s =>
    let s := wdelete s s.cursor
    let s := { s with length := s.length - 1 }
    let s := if s.cursor = s.length ∧ 0 < s.cursor then { s with cursor := s.cursor - 1 } else s
    deleteByteLoop n s

/-- `window.deleteByte`. -/
def deleteByte (s : WState) (count : Int) : WState :=
  if s.length = 0 then s
  else
    let cnt := min (min (max count 1) (s.width - gomod s.cursor s.width)) (s.length - s.cursor)
    deleteByteLoop cnt.toNat s

/-- Loop body of `window.deletePrevByte`, iterated `cnt` times. -/
def deletePrevByteLoop : Nat → WState → WState
  | 0, s => s
  | n + 1, s =>
    let s := wdelete s (s.cursor - 1)
    let s := { s with cursor := s.cursor - 1, length := s.length - 1 }
    deletePrevByteLoop n s

/-- `window.deletePrevByte`. -/
def deletePrevByte (s : WState) (count : Int) : WState :=
  deletePrevByteLoop (min (max count 1) (gomod s.cursor s.width)).toNat s

/-- `window.increment`: wrapping byte add of `max(count,1) % 256` at the
cursor; an empty content becomes one byte long. -/
def increment (s : WState) (count : Int) : WState :=
  match goReadBytes s.content s.cursor 1 with
  | none => s
  | some bs =>
    let s := wreplace s s.cursor ((bs.getD 0 0 + gomod (max count 1) 256) % 256)
    if s.length = 0 then { s with length := s.length + 1 } else s

/-- `window.decrement`: wrapping byte subtract of `max(count,1) % 256` at the
cursor; an empty content becomes one byte long. -/
def decrement (s : WState) (count : Int) : WState :=
  match goReadBytes s.content s.cursor 1 with
  | none => s
  | some bs =>
    let s := wreplace s s.cursor ((bs.getD 0 0 - gomod (max count 1) 256) % 256)
    if s.length = 0 then { s with length := s.length + 1 } else s

/-- `window.startInsert`. -/
def startInsert (s : WState) : WState :=
  let s := { s with append := false, extending := false, pending := false }
  if s.cursor = s.length then
    { s with append := true, extending := true, length := s.length + 1 }
  else s

/-- `window.startInsertHead`: move to the head of the row, then the same body
as `startInsert`. -/
def startInsertHead (s : WState) : WState := startInsert (cursorHead s 0)

/-- `window.startAppend`. -/
def startAppend (s : WState) : WState :=
  let s := { s with append := true, extending := false, pending := false }
  let s := if 0 < s.length then { s with cursor := s.cursor + 1 } else s
  let s := if s.cursor = s.length then { s with extending := true, length := s.length + 1 } else s
  scrollDownAdj s

/-- `window.startAppendEnd`. -/
def startAppendEnd (s : WState) : WState := startAppend (cursorEnd s 0)

/-- `window.startReplaceByte`. -/
def startReplaceByte (s : WState) : WState :=
  { s with replaceByte := true, append := false, extending := false, pending := false }

/-- `window.startReplace`. -/
def startReplace (s : WState) : WState :=
  { s with replaceByte := false, append := false, extending := false, pending := false }

/-- `window.exitInsert`: drop the pending nibble; when an append run was
active, shrink an extend slot back and step the cursor back (not below 0),
clearing all edit-assembly flags. -/
def exitInsert (s : WState) : WState :=
  let s := { s with pending := false }
  if s.append = true then
    let s := if s.extending = true ∧ 0 < s.length then { s with length := s.length - 1 } else s
    let s := if 0 < s.cursor then { s with cursor := s.cursor - 1 } else s
    { s with replaceByte := false, append := false, extending := false, pending := false }
  else s

/-- `window.insertByte`: one hex nibble; the first of a pair is stashed shifted
into the high four bits (`b << 4`, i.e. `b * 16`), the second commits a full
byte in Insert or Replace fashion, then the viewport re-scrolls down. -/
def insertByte (s : WState) (m : Mode) (b : Int) : WState :=
  if s.pending = true then
    let s' :=
      match m with
      | .insert =>
        let s := winsert s s.cursor (Int.lor s.pendingByte b)
        { s with cursor := s.cursor + 1, length := s.length + 1 }
      | .replace =>
        let s := wreplace s s.cursor (Int.lor s.pendingByte b)
        let s := if s.length = 0 then { s with length := s.length + 1 } else s
        if s.replaceByte = true then exitInsert s
        else
          let s := { s with cursor := s.cursor + 1 }
          if s.cursor = s.length then
            { s with append := true, extending := true, length := s.length + 1 }
          else s
      | _ => s
    let s' := scrollDownAdj s'
    { s' with pending := false, pendingByte := 0 }
  else
    { s with pending := true, pendingByte := b * 16 }

/-- `window.insertRune`: in text focus a rune's UTF-8 bytes are fed as
high/low nibble pairs (`buf[i]>>4` is division by 16 and `buf[i]&0x0f` the
remainder, for byte values); otherwise a single hex-digit keystroke feeds one
nibble. -/
def insertRune (s : WState) (m : Mode) (ch : Char) : WState :=
  if m = .insert ∨ m = .replace then
    if s.focusText = true then
      (String.utf8EncodeChar ch).foldl
        (fun s b =>
          let v : Int := (b.toNat : Int)
          insertByte (insertByte s m (godiv v 16)) m (gomod v 16)) s
    else if '0' ≤ ch ∧ ch ≤ '9' then insertByte s m ((ch.toNat : Int) - 48)
    else if 'a' ≤ ch ∧ ch ≤ 'f' then insertByte s m ((ch.toNat : Int) - 97 + 10)
    else s
  else s

/-- `window.backspace`. -/
def backspace (s : WState) : WState :=
  if s.pending = true then { s with pending := false, pendingByte := 0 }
  else if 0 < s.cursor then
    let s := wdelete s (s.cursor - 1)
    { s with cursor := s.cursor - 1, length := s.length - 1 }
  else s

/-- `window.startVisual`. -/
def startVisual (s : WState) : WState := { s with visualStart := s.cursor }

/-- `window.switchVisualEnd`: swap cursor and anchor and re-scroll.  Calling it
with no active selection is a programmer-invariant violation (the source
panics); the embedding leaves the state unchanged on that dead branch. -/
def switchVisualEnd (s : WState) : WState :=
  if s.visualStart < 0 then s
  else
    let s := { s with cursor := s.visualStart, visualStart := s.cursor }
    if s.cursor < s.offset then
      { s with offset := godiv s.cursor s.width * s.width }
    else if s.offset + s.height * s.width ≤ s.cursor then
      { s with offset := godiv (s.cursor - s.height * s.width + s.width) s.width * s.width }
    else s

/-- `window.exitVisual`. -/
def exitVisual (s : WState) : WState := { s with visualStart := -1 }

/-- Loop body of `window.undo`. -/
def undoLoop : Nat → WState → WState
  | 0, s => s
  | n + 1, s =>
    match histUndo s.hist with
    | none => s
    | some (cp, h) =>
      undoLoop n { s with content := cp.1, offset := cp.2.1, cursor := cp.2.2,
                          length := (cp.1.length : Int), hist := h }

/-- `window.undo`. -/
def undo (s : WState) (count : Int) : WState := undoLoop (max count 1).toNat s

/-- Loop body of `window.redo`. -/
def redoLoop : Nat → WState → WState
  | 0, s => s
  | n + 1, s =>
    match histRedo s.hist with
    | none => s
    | some (cp, h) =>
      redoLoop n { s with content := cp.1, offset := cp.2.1, cursor := cp.2.2,
                          length := (cp.1.length : Int), hist := h }

/-- `window.redo`. -/
def redo (s : WState) (count : Int) : WState := redoLoop (max count 1).toNat s

/-- Does the byte run `t` occur in `bs` at index `i`? -/
def matchAt (bs t : List Int) (i : Nat) : Bool := (bs.drop i).take t.length == t

/-- `bytes.Index`: index of the first occurrence of `t` in `bs`, `-1` when
there is none (an empty `t` matches at 0). -/
def bIndex (bs t : List Int) : Int :=
  match (List.range (bs.length + 1 - t.length)).find? (matchAt bs t) with
  | some i => (i : Int)
  | none => -1

/-- `bytes.LastIndex`: index of the last occurrence of `t` in `bs`, `-1` when
there is none (an empty `t` matches at `bs.length`). -/
def bLastIndex (bs t : List Int) : Int :=
  match (List.range (bs.length + 1 - t.length)).reverse.find? (matchAt bs t) with
  | some i => (i : Int)
  | none => -1

/-- `window.searchForward`: scan a bounded window starting one byte past the
cursor; on a match move the cursor there and re-scroll down if needed. -/
def searchForward (s : WState) (t : List Int) : WState :=
  let base := s.cursor + 1
  let size := (max (s.height * s.width * 50) ((t.length : Int) * 500)).toNat
  match goReadBytes s.content base size with
  | none => s
  | some bs =>
    let i := bIndex bs t
    if 0 ≤ i then
      let s := { s with cursor := base + i }
      if s.offset + s.height * s.width ≤ s.cursor then
        { s with offset := godiv (s.cursor - s.height * s.width + s.width + 1) s.width * s.width }
      else s
    else s

/-- `window.searchBackward`: scan a bounded window ending at the cursor; on a
match move the cursor to the last occurrence and re-scroll up if needed. -/
def searchBackward (s : WState) (t : List Int) : WState :=
  let size := max (s.height * s.width * 50) ((t.length : Int) * 500)
  let base := max 0 (s.cursor - size)
  match goReadBytes s.content base (min size s.cursor).toNat with
  | none => s
  | some bs =>
    let i := bLastIndex bs t
    if 0 ≤ i then
      let s := { s with cursor := base + i }
      if s.cursor < s.offset then
        { s with offset := godiv s.cursor s.width * s.width }
      else s
    else s

/-- `window.search`. -/
def search (s : WState) (t : List Int) (forward : Bool) : WState :=
  if forward then searchForward s t else searchBackward s t

/-- The `SwitchFocus` arm of the run loop: toggle text focus, cancel a pending
nibble, and bump the change counter. -/
def switchFocus (s : WState) : WState :=
  let s := { s with focusText := !s.focusText }
  let s := if s.pending = true then { s with pending := false, pendingByte := 0 } else s
  { s with changedTick := s.changedTick + 1 }

/-- The dispatch switch of `window.run`, one arm per event type.  `Undo` and
`Redo` outside Normal mode are programmer-invariant violations (the source
panics); the embedding leaves the state unchanged on those dead branches. -/
def dispatch (e : Event) (s : WState) : WState :=
  match e.etype with
  | .cursorUp => cursorUp s e.count
  | .cursorDown => cursorDown s e.count
  | .cursorLeft => cursorLeft s e.count
  | .cursorRight => cursorRight s e.mode e.count
  | .cursorPrev => cursorPrev s e.count
  | .cursorNext => cursorNext s e.mode e.count
  | .cursorHead => cursorHead s e.count
  | .cursorEnd => cursorEnd s e.count
  | .cursorGoto => cursorGoto s e
  | .scrollUp => scrollUp s e.count
  | .scrollDown => scrollDown s e.count
  | .pageUp => pageUp s
  | .pageDown => pageDown s
  | .pageUpHalf => pageUpHalf s
  | .pageDownHalf => pageDownHalf s
  | .pageTop => pageTop s
  | .pageEnd => pageEnd s
  | .jumpTo => jumpTo s
  | .jumpBack => jumpBack s
  | .deleteByte => deleteByte s e.count
  | .deletePrevByte => deletePrevByte s e.count
  | .increment => increment s e.count
  | .decrement => decrement s e.count
  | .startInsert => startInsert s
  | .startInsertHead => startInsertHead s
  | .startAppend => startAppend s
  | .startAppendEnd => startAppendEnd s
  | .startReplaceByte => startReplaceByte s
  | .startReplace => startReplace s
  | .exitInsert => exitInsert s
  | .rune => insertRune s e.mode e.rune
  | .backspace => backspace s
  | .delete => deleteByte s 1
  | .startVisual => startVisual s
  | .switchVisualEnd => switchVisualEnd s
  | .exitVisual => exitVisual s
  | .switchFocus => switchFocus s
  | .undo => if e.mode = .normal then undo s e.count else s
  | .redo => if e.mode = .normal then redo s e.count else s
  | .executeSearch => search s e.arg (e.rune == '/')
  | .nextSearch => search s e.arg (e.rune == '/')
  | .previousSearch => search s e.arg (e.rune != '/')

/-- One iteration of the `window.run` loop: remember offset, cursor and change
counter, dispatch the event, then decide whether to push a history checkpoint
and record whether this command changed the content. -/
def runStep (e : Event) (s : WState) : WState :=
  let offset0 := s.offset
  let cursor0 := s.cursor
  let tick0 := s.changedTick
  let t := dispatch e s
  let changed : Bool := tick0 != t.changedTick
  let t' :=
    if e.etype = .undo ∨ e.etype = .redo then t
    else if (e.mode = .normal ∧ changed = true) ∨ (e.etype = .exitInsert ∧ t.prevChanged = true) then
      { t with hist := histPush t.hist t.content t.offset t.cursor }
    else if e.mode ≠ .normal ∧ t.prevChanged = true ∧ changed = false ∧ navRange e.etype = true then
      { t with hist := histPush t.hist t.content offset0 cursor0 }
    else t
  { t' with prevChanged := changed }

/-- Run a sequence of events through the command loop. -/
def runSeq (es : List Event) (s : WState) : WState := es.foldl (fun t e => runStep e t) s

/-! Arithmetic facts about Go's truncated division on the nonnegative operands
the window code applies it to, where it agrees with floor division. -/

/-- The positional conditions of the claim: cursor within the logical content,
viewport offset a nonnegative multiple of the width, and the cursor inside the
`height*width`-byte viewport. -/
def PosInv (s : WState) : Prop :=
  0 ≤ s.cursor ∧ s.cursor < max s.length 1 ∧ s.width ∣ s.offset ∧ 0 ≤ s.offset ∧
    s.offset ≤ s.cursor ∧ s.cursor < s.offset + s.height * s.width

/-- A saved jump position is a (cursor, offset) pair that was valid when it was
pushed: since navigation never mutates the content, validity against the real
content length is stable. -/
def StackInv (s : WState) (p : Int × Int) : Prop :=
  0 ≤ p.2 ∧ s.width ∣ p.2 ∧ p.2 ≤ p.1 ∧ p.1 < p.2 + s.height * s.width ∧
    p.1 < max (s.content.length : Int) 1

/-- A valid window state: positive geometry, the positional invariants, the
logical length accounting for an open extend slot over the real content, and
sound jump-stack entries. -/
def ValidState (s : WState) : Prop :=
  0 < s.width ∧ 0 < s.height ∧ PosInv s ∧
    s.length = (s.content.length : Int) + (if s.extending = true then 1 else 0) ∧
    ∀ p ∈ s.stack, StackInv s p

/-- The invariant minus the lower viewport bound: what holds after a cursor
move that may have left the viewport upwards, before the upward re-scroll. -/
def PreUp (s : WState) : Prop :=
  0 < s.width ∧ 0 < s.height ∧ 0 ≤ s.cursor ∧ s.cursor < max s.length 1 ∧
    s.width ∣ s.offset ∧ 0 ≤ s.offset ∧ s.cursor < s.offset + s.height * s.width ∧
    s.length = (s.content.length : Int) + (if s.extending = true then 1 else 0) ∧
    ∀ p ∈ s.stack, StackInv s p

/-- The invariant minus the upper viewport bound: what holds after a cursor
move that may have left the viewport downwards, before the downward
re-scroll. -/
def PreDown (s : WState) : Prop :=
  0 < s.width ∧ 0 < s.height ∧ 0 ≤ s.cursor ∧ s.cursor < max s.length 1 ∧
    s.width ∣ s.offset ∧ 0 ≤ s.offset ∧ s.offset ≤ s.cursor ∧
    s.length = (s.content.length : Int) + (if s.extending = true then 1 else 0) ∧
    ∀ p ∈ s.stack, StackInv s p

/-- The shared body of `pageUp` and `pageUpHalf`, parametrised by the jump. -/
def pageUpWith (s : WState) (j : Int) : WState :=
  let s := { s with offset := max (s.offset - j * s.width) 0 }
  if s.offset = 0 then { s with cursor := 0 }
  else if s.offset + s.height * s.width ≤ s.cursor then
    { s with cursor := s.offset + (s.height - 1) * s.width }
  else s

/-- The shared body of `pageDown` and `pageDownHalf`, parametrised by the
jump. -/
def pageDownWith (s : WState) (j : Int) : WState :=
  let off := max ((godiv (s.length + s.width - 1) s.width - s.height) * s.width) 0
  let s := { s with offset := min (s.offset + j * s.width) off }
  if s.cursor < s.offset then { s with cursor := s.offset }
  else if s.offset = off then
    { s with cursor := (godiv (max s.length 1 + s.width - 1) s.width - 1) * s.width }
  else s

/-- The window conditions asserted by the navigation-invariant claim: cursor
inside `[0, max(length,1))`, viewport offset a multiple of the width, and the
cursor inside the viewport whenever content is non-empty. -/
def ClaimC1Inv (s : WState) : Prop :=
  0 ≤ s.cursor ∧ s.cursor < max s.length 1 ∧ s.width ∣ s.offset ∧
    (s.length ≠ 0 → s.offset ≤ s.cursor ∧ s.cursor < s.offset + s.height * s.width)

/-- A small concrete window state (three bytes of content, a one-by-one
viewport) used to witness the claims on concrete inputs. -/
def navDemoState : WState :=
  { content := [7, 8, 9], changedTick := 0, prevChanged := false,
    hist := { entries := [], index := 0 }, height := 1, width := 1,
    offset := 0, cursor := 0, length := 3, stack := [],
    append := false, replaceByte := false, extending := false, pending := false,
    pendingByte := 0, visualStart := -1, focusText := false }

/-- A valid empty-content state used to witness claims whose scenario needs
the cursor at end-of-content. -/
def emptyDemoState : WState :=
  { content := [], changedTick := 0, prevChanged := false,
    hist := { entries := [], index := 0 }, height := 1, width := 1,
    offset := 0, cursor := 0, length := 0, stack := [],
    append := false, replaceByte := false, extending := false, pending := false,
    pendingByte := 0, visualStart := -1, focusText := false }

/-- A concrete state with a two-entry jump stack, used to witness C8. -/
def stackDemoState : WState := { navDemoState with stack := [(1, 0), (2, 0)] }

/-- The size of the bounded search window:
`max(height*width*50, len(pattern)*500)`. -/
def searchSize (s : WState) (t : List Int) : Int :=
  max (s.height * s.width * 50) ((t.length : Int) * 500)

/-- The byte window `searchForward` scans: `searchSize` bytes starting one
byte after the cursor (zero-padded past end-of-content, as the code's
`readBytes` returns it). -/
def forwardWindow (s : WState) (t : List Int) : List Int :=
  (List.range (searchSize s t).toNat).map fun (i : Nat) =>
    readByte s.content (s.cursor + 1 + (i : Int))

/-- The byte window `searchBackward` scans: `min(searchSize, cursor)` bytes
ending at the cursor. -/
def backwardWindow (s : WState) (t : List Int) : List Int :=
  (List.range (min (searchSize s t) s.cursor).toNat).map fun (i : Nat) =>
    readByte s.content (max 0 (s.cursor - searchSize s t) + (i : Int))

/-- A concrete state whose content holds the digit run `"0"` right of a
50-byte prefix, so the `jumpTo` scan finds a complete run parsing to 0. -/
def jumpZeroState : WState :=
  { content := List.replicate 50 65 ++ [48, 65], changedTick := 0,
    prevChanged := false, hist := { entries := [], index := 0 }, height := 2,
    width := 4, offset := 0, cursor := 0, length := 52, stack := [],
    append := false, replaceByte := false, extending := false, pending := false,
    pendingByte := 0, visualStart := -1, focusText := false }

/-- A concrete state whose content holds the digit run `"51"` right of a
50-byte prefix, so `jumpTo` jumps to offset 51. -/
def jumpDemoState : WState :=
  { content := List.replicate 50 65 ++ [53, 49, 65], changedTick := 0,
    prevChanged := false, hist := { entries := [], index := 0 }, height := 2,
    width := 4, offset := 0, cursor := 0, length := 53, stack := [],
    append := false, replaceByte := false, extending := false, pending := false,
    pendingByte := 0, visualStart := -1, focusText := false }

/-- The switch-focus event in Normal mode, used to refute C4 as stated. -/
def switchFocusEvent : Event := { etype := .switchFocus, mode := .normal }

/-- A Normal-mode increment event and a Normal-mode undo event, used to
witness the amended checkpoint policy. -/
def incrementEvent : Event := { etype := .increment, mode := .normal, count := 1 }

def undoEvent : Event := { etype := .undo, mode := .normal, count := 1 }

theorem godiv_eq_ediv {a w : Int} (ha : 0 ≤ a) (hw : 0 ≤ w) : godiv a w = a / w :=
  Int.tdiv_eq_ediv ha hw

theorem gomod_eq_emod {a w : Int} (ha : 0 ≤ a) (hw : 0 ≤ w) : gomod a w = a % w :=
  Int.tmod_eq_emod ha hw

theorem godiv_nonneg {a w : Int} (ha : 0 ≤ a) (hw : 0 ≤ w) : 0 ≤ godiv a w := by
  rw [godiv_eq_ediv ha hw]; exact Int.ediv_nonneg ha hw

theorem godiv_mul_le {a w : Int} (ha : 0 ≤ a) (hw : 0 < w) : godiv a w * w ≤ a := by
  rw [godiv_eq_ediv ha hw.le]
  have h1 := Int.ediv_add_emod a w
  have h2 := Int.emod_nonneg a (ne_of_gt hw)
  nlinarith [h1, h2]

theorem lt_godiv_mul_add {a w : Int} (ha : 0 ≤ a) (hw : 0 < w) : a < godiv a w * w + w := by
  rw [godiv_eq_ediv ha hw.le]
  have h1 := Int.ediv_add_emod a w
  have h2 := Int.emod_lt_of_pos a hw
  nlinarith [h1, h2]

theorem gomod_nonneg {a w : Int} (ha : 0 ≤ a) (hw : 0 < w) : 0 ≤ gomod a w := by
  rw [gomod_eq_emod ha hw.le]; exact Int.emod_nonneg a (ne_of_gt hw)

theorem gomod_lt {a w : Int} (ha : 0 ≤ a) (hw : 0 < w) : gomod a w < w := by
  rw [gomod_eq_emod ha hw.le]; exact Int.emod_lt_of_pos a hw

theorem godiv_add_gomod {a w : Int} (ha : 0 ≤ a) (hw : 0 < w) :
    godiv a w * w + gomod a w = a := by
  rw [godiv_eq_ediv ha hw.le, gomod_eq_emod ha hw.le]
  have := Int.ediv_add_emod a w
  nlinarith [this]

/-- Two multiples of a positive `w` that are strictly ordered differ by at
least `w`. -/
theorem mult_add_le {a b w : Int} (hw : 0 < w) (ha : w ∣ a) (hb : w ∣ b) (h : a < b) :
    a + w ≤ b := by
  obtain ⟨m, rfl⟩ := ha
  obtain ⟨n, rfl⟩ := hb
  have hmn : m < n := lt_of_mul_lt_mul_left h hw.le
  have : w * (m + 1) ≤ w * n := mul_le_mul_of_nonneg_left (by omega) hw.le
  nlinarith [this]

/-! The C1 invariant: the window-position conditions the claim asserts, the
length accounting for the append/extend virtual slot, and the soundness of the
saved jump-stack entries. -/

/-- Effect of the shared downward re-scroll: it only rewrites the offset, and
the result places the cursor inside the viewport. -/
theorem scrollDownAdj_spec (s : WState) (hw : 0 < s.width) (hh : 0 < s.height)
    (hdvd : s.width ∣ s.offset) (ho : 0 ≤ s.offset) (hol : s.offset ≤ s.cursor) :
    ∃ o, scrollDownAdj s = { s with offset := o } ∧ 0 ≤ o ∧ s.width ∣ o ∧
      o ≤ s.cursor ∧ s.cursor < o + s.height * s.width := by
  have hwle : s.width ≤ s.height * s.width := le_mul_of_one_le_left hw.le hh
  unfold scrollDownAdj
  split_ifs with h
  · have ha : 0 ≤ s.cursor - s.height * s.width + s.width := by nlinarith [ho, h]
    refine ⟨_, rfl, ?_, dvd_mul_left _ _, ?_, ?_⟩
    · exact mul_nonneg (godiv_nonneg ha hw.le) hw.le
    · have := godiv_mul_le ha hw
      linarith
    · have := lt_godiv_mul_add ha hw
      linarith
  · exact ⟨s.offset, rfl, ho, hdvd, hol, by omega⟩

/-- Effect of the shared upward re-scroll: it only rewrites the offset, and the
result places the cursor inside the viewport. -/
theorem scrollUpAdj_spec (s : WState) (hw : 0 < s.width) (hh : 0 < s.height)
    (hdvd : s.width ∣ s.offset) (ho : 0 ≤ s.offset) (hc : 0 ≤ s.cursor)
    (hub : s.cursor < s.offset + s.height * s.width) :
    ∃ o, scrollUpAdj s = { s with offset := o } ∧ 0 ≤ o ∧ s.width ∣ o ∧
      o ≤ s.cursor ∧ s.cursor < o + s.height * s.width := by
  have hwle : s.width ≤ s.height * s.width := le_mul_of_one_le_left hw.le hh
  unfold scrollUpAdj
  split_ifs with h
  · refine ⟨_, rfl, mul_nonneg (godiv_nonneg hc hw.le) hw.le, dvd_mul_left _ _,
      godiv_mul_le hc hw, ?_⟩
    have := lt_godiv_mul_add hc hw
    linarith
  · exact ⟨s.offset, rfl, ho, hdvd, by omega, hub⟩

/-- Introduction lemma: validity of a state whose offset was rewritten. -/
theorem validState_mk_offset (s : WState) (o : Int)
    (hw : 0 < s.width) (hh : 0 < s.height) (hc0 : 0 ≤ s.cursor)
    (hcl : s.cursor < max s.length 1)
    (hacc : s.length = (s.content.length : Int) + (if s.extending = true then 1 else 0))
    (hstk : ∀ p ∈ s.stack, StackInv s p)
    (h0 : 0 ≤ o) (hd : s.width ∣ o) (hol : o ≤ s.cursor)
    (hub : s.cursor < o + s.height * s.width) :
    ValidState { s with offset := o } :=
  ⟨hw, hh, ⟨hc0, hcl, hd, h0, hol, hub⟩, hacc, hstk⟩

/-- Introduction lemma: validity of a state whose cursor was rewritten. -/
theorem validState_mk_cursor (s : WState) (c : Int)
    (hw : 0 < s.width) (hh : 0 < s.height)
    (hacc : s.length = (s.content.length : Int) + (if s.extending = true then 1 else 0))
    (hstk : ∀ p ∈ s.stack, StackInv s p)
    (hc0 : 0 ≤ c) (hcl : c < max s.length 1) (hd : s.width ∣ s.offset)
    (h0 : 0 ≤ s.offset) (hol : s.offset ≤ c) (hub : c < s.offset + s.height * s.width) :
    ValidState { s with cursor := c } :=
  ⟨hw, hh, ⟨hc0, hcl, hd, h0, hol, hub⟩, hacc, hstk⟩

/-- Introduction lemma: the pre-up-scroll condition for a state whose cursor
was rewritten. -/
theorem preUp_mk_cursor (s : WState) (c : Int)
    (hw : 0 < s.width) (hh : 0 < s.height)
    (hacc : s.length = (s.content.length : Int) + (if s.extending = true then 1 else 0))
    (hstk : ∀ p ∈ s.stack, StackInv s p)
    (hc0 : 0 ≤ c) (hcl : c < max s.length 1) (hd : s.width ∣ s.offset)
    (h0 : 0 ≤ s.offset) (hub : c < s.offset + s.height * s.width) :
    PreUp { s with cursor := c } :=
  ⟨hw, hh, hc0, hcl, hd, h0, hub, hacc, hstk⟩

/-- Introduction lemma: the pre-down-scroll condition for a state whose cursor
was rewritten. -/
theorem preDown_mk_cursor (s : WState) (c : Int)
    (hw : 0 < s.width) (hh : 0 < s.height)
    (hacc : s.length = (s.content.length : Int) + (if s.extending = true then 1 else 0))
    (hstk : ∀ p ∈ s.stack, StackInv s p)
    (hc0 : 0 ≤ c) (hcl : c < max s.length 1) (hd : s.width ∣ s.offset)
    (h0 : 0 ≤ s.offset) (hol : s.offset ≤ c) :
    PreDown { s with cursor := c } :=
  ⟨hw, hh, hc0, hcl, hd, h0, hol, hacc, hstk⟩

theorem scrollUpAdj_valid (s : WState) (h : PreUp s) : ValidState (scrollUpAdj s) := by
  obtain ⟨hw, hh, hc0, hcl, hdvd, ho0, hcub, hacc, hstk⟩ := h
  have hwle : s.width ≤ s.height * s.width := le_mul_of_one_le_left hw.le hh
  unfold scrollUpAdj
  split_ifs with h
  · have h1 := godiv_mul_le hc0 hw
    have h2 := lt_godiv_mul_add hc0 hw
    have h3 : 0 ≤ godiv s.cursor s.width * s.width :=
      mul_nonneg (godiv_nonneg hc0 hw.le) hw.le
    exact validState_mk_offset s _ hw hh hc0 hcl hacc hstk h3 (dvd_mul_left _ _) h1
      (by linarith)
  · exact ⟨hw, hh, ⟨hc0, hcl, hdvd, ho0, by omega, hcub⟩, hacc, hstk⟩

theorem scrollDownAdj_valid (s : WState) (h : PreDown s) : ValidState (scrollDownAdj s) := by
  obtain ⟨hw, hh, hc0, hcl, hdvd, ho0, holc, hacc, hstk⟩ := h
  have hwle : s.width ≤ s.height * s.width := le_mul_of_one_le_left hw.le hh
  unfold scrollDownAdj
  split_ifs with h
  · have ha : 0 ≤ s.cursor - s.height * s.width + s.width := by nlinarith [ho0, h]
    have h1 := godiv_mul_le ha hw
    have h2 := lt_godiv_mul_add ha hw
    have h3 : 0 ≤ godiv (s.cursor - s.height * s.width + s.width) s.width * s.width :=
      mul_nonneg (godiv_nonneg ha hw.le) hw.le
    exact validState_mk_offset s _ hw hh hc0 hcl hacc hstk h3 (dvd_mul_left _ _)
      (by linarith) (by linarith)
  · exact ⟨hw, hh, ⟨hc0, hcl, hdvd, ho0, holc, by omega⟩, hacc, hstk⟩

/-- Introduction lemma: validity of a state whose append/extend slot was
collapsed (length reduced by one, flags cleared). -/
theorem validState_mk_collapse (s : WState)
    (hw : 0 < s.width) (hh : 0 < s.height) (hc0 : 0 ≤ s.cursor)
    (hcl : s.cursor < max (s.length - 1) 1) (hd : s.width ∣ s.offset)
    (h0 : 0 ≤ s.offset) (hol : s.offset ≤ s.cursor)
    (hub : s.cursor < s.offset + s.height * s.width)
    (hacc : s.length - 1 = (s.content.length : Int))
    (hstk : ∀ p ∈ s.stack, StackInv s p) :
    ValidState { s with append := false, extending := false, length := s.length - 1 } :=
  ⟨hw, hh, ⟨hc0, hcl, hd, h0, hol, hub⟩, by simpa using hacc, hstk⟩

theorem collapseSlotLt_valid (s : WState) (hv : ValidState s) :
    ValidState (collapseSlotLt s) := by
  obtain ⟨hw, hh, ⟨hc0, hcl, hdvd, ho0, holc, hcub⟩, hacc, hstk⟩ := hv
  unfold collapseSlotLt
  split_ifs with hcol hlen
  · obtain ⟨hap, hex, hlt⟩ := hcol
    rw [hex] at hacc
    simp only [if_true] at hacc
    exact validState_mk_collapse s hw hh hc0 (by omega) hdvd ho0 holc hcub (by omega) hstk
  · obtain ⟨hap, hex, hlt⟩ := hcol
    rw [hex] at hacc
    simp only [if_true] at hacc
    exact absurd (by omega : (0:Int) < s.length) hlen
  · exact ⟨hw, hh, ⟨hc0, hcl, hdvd, ho0, holc, hcub⟩, hacc, hstk⟩

theorem collapseSlotNe_valid (s : WState) (hv : ValidState s)
    (hextra : s.extending = true → s.cursor = 0 ∨ s.cursor + 2 ≤ s.length) :
    ValidState (collapseSlotNe s) := by
  obtain ⟨hw, hh, ⟨hc0, hcl, hdvd, ho0, holc, hcub⟩, hacc, hstk⟩ := hv
  unfold collapseSlotNe
  split_ifs with hcol hlen
  · obtain ⟨hap, hex, hne⟩ := hcol
    rw [hex] at hacc
    simp only [if_true] at hacc
    rcases hextra hex with h0 | h2
    · exact validState_mk_collapse s hw hh hc0 (by omega) hdvd ho0 holc hcub (by omega) hstk
    · exact validState_mk_collapse s hw hh hc0 (by omega) hdvd ho0 holc hcub (by omega) hstk
  · obtain ⟨hap, hex, hne⟩ := hcol
    rw [hex] at hacc
    simp only [if_true] at hacc
    exact absurd (by omega : (0:Int) < s.length) hlen
  · exact ⟨hw, hh, ⟨hc0, hcl, hdvd, ho0, holc, hcub⟩, hacc, hstk⟩

theorem cursorUp_valid (s : WState) (count : Int) (hv : ValidState s) :
    ValidState (cursorUp s count) := by
  obtain ⟨hw, hh, ⟨hc0, hcl, hdvd, ho0, holc, hcub⟩, hacc, hstk⟩ := hv
  have hq0 : 0 ≤ godiv s.cursor s.width := godiv_nonneg hc0 hw.le
  have hqle : godiv s.cursor s.width * s.width ≤ s.cursor := godiv_mul_le hc0 hw
  have hm0 : 0 ≤ min (max count 1) (godiv s.cursor s.width) := le_min (by omega) hq0
  have hmul : min (max count 1) (godiv s.cursor s.width) * s.width ≤
      godiv s.cursor s.width * s.width :=
    mul_le_mul_of_nonneg_right (min_le_right _ _) hw.le
  have hmul0 : 0 ≤ min (max count 1) (godiv s.cursor s.width) * s.width :=
    mul_nonneg hm0 hw.le
  show ValidState (collapseSlotLt (scrollUpAdj { s with cursor := s.cursor - min (max count 1) (godiv s.cursor s.width) * s.width }))
  refine collapseSlotLt_valid _ (scrollUpAdj_valid _ ?_)
  exact preUp_mk_cursor s _ hw hh hacc hstk (by linarith) (by omega) hdvd ho0 (by linarith)

theorem godiv_mono {a b w : Int} (ha : 0 ≤ a) (hab : a ≤ b) (hw : 0 < w) :
    godiv a w ≤ godiv b w := by
  rw [godiv_eq_ediv ha hw.le, godiv_eq_ediv (le_trans ha hab) hw.le]
  exact Int.ediv_le_ediv hw hab

theorem godiv_mul_of_dvd {a w : Int} (h : w ∣ a) (ha : 0 ≤ a) (hw : 0 < w) :
    godiv a w * w = a := by
  obtain ⟨k, rfl⟩ := h
  rw [godiv_eq_ediv ha hw.le, Int.mul_ediv_cancel_left _ (ne_of_gt hw)]
  ring

theorem godiv_le_pred {h k : Int} (hh : 0 < h) (hk : 2 ≤ k) : godiv h k ≤ h - 1 := by
  have h0 : 0 ≤ godiv h k := godiv_nonneg hh.le (by omega)
  have h1 : godiv h k * k ≤ h := godiv_mul_le hh.le (by omega)
  by_contra hcon
  push_neg at hcon
  have h2 : godiv h k * 2 ≤ godiv h k * k := mul_le_mul_of_nonneg_left hk h0
  linarith

theorem scrollUpAdj_cursor (s : WState) : (scrollUpAdj s).cursor = s.cursor := by
  unfold scrollUpAdj; split_ifs <;> rfl

theorem scrollUpAdj_length (s : WState) : (scrollUpAdj s).length = s.length := by
  unfold scrollUpAdj; split_ifs <;> rfl

theorem scrollUpAdj_extending (s : WState) : (scrollUpAdj s).extending = s.extending := by
  unfold scrollUpAdj; split_ifs <;> rfl

theorem scrollDownAdj_cursor (s : WState) : (scrollDownAdj s).cursor = s.cursor := by
  unfold scrollDownAdj; split_ifs <;> rfl

theorem scrollDownAdj_length (s : WState) : (scrollDownAdj s).length = s.length := by
  unfold scrollDownAdj; split_ifs <;> rfl

theorem scrollDownAdj_content (s : WState) : (scrollDownAdj s).content = s.content := by
  unfold scrollDownAdj; split_ifs <;> rfl

theorem scrollDownAdj_stack (s : WState) : (scrollDownAdj s).stack = s.stack := by
  unfold scrollDownAdj; split_ifs <;> rfl

theorem cursorDown_valid (s : WState) (count : Int) (hv : ValidState s) :
    ValidState (cursorDown s count) := by
  obtain ⟨hw, hh, ⟨hc0, hcl, hdvd, ho0, holc, hcub⟩, hacc, hstk⟩ := hv
  show ValidState (scrollDownAdj { s with cursor := s.cursor + min (min (max count 1) (godiv (max s.length 1 - 1) s.width - godiv s.cursor s.width) * s.width) (max s.length 1 - 1 - s.cursor) })
  have hrows : godiv s.cursor s.width ≤ godiv (max s.length 1 - 1) s.width :=
    godiv_mono hc0 (by omega) hw
  have hmin0 : 0 ≤ min (max count 1) (godiv (max s.length 1 - 1) s.width - godiv s.cursor s.width) :=
    le_min (by omega) (by linarith)
  have hd0 : 0 ≤ min (min (max count 1) (godiv (max s.length 1 - 1) s.width - godiv s.cursor s.width) * s.width) (max s.length 1 - 1 - s.cursor) :=
    le_min (mul_nonneg hmin0 hw.le) (by omega)
  have hdle : min (min (max count 1) (godiv (max s.length 1 - 1) s.width - godiv s.cursor s.width) * s.width) (max s.length 1 - 1 - s.cursor) ≤ max s.length 1 - 1 - s.cursor :=
    min_le_right _ _
  refine scrollDownAdj_valid _ (preDown_mk_cursor s _ hw hh hacc hstk (by linarith)
    (by omega) hdvd ho0 (by linarith))

theorem cursorLeft_valid (s : WState) (count : Int) (hv : ValidState s) :
    ValidState (cursorLeft s count) := by
  obtain ⟨hw, hh, ⟨hc0, hcl, hdvd, ho0, holc, hcub⟩, hacc, hstk⟩ := hv
  show ValidState (collapseSlotLt { s with cursor := s.cursor - min (max count 1) (gomod s.cursor s.width) })
  have hr0 : 0 ≤ gomod s.cursor s.width := gomod_nonneg hc0 hw
  have hrw : gomod s.cursor s.width < s.width := gomod_lt hc0 hw
  have hqr : godiv s.cursor s.width * s.width + gomod s.cursor s.width = s.cursor :=
    godiv_add_gomod hc0 hw
  have hm0 : 0 ≤ min (max count 1) (gomod s.cursor s.width) := le_min (by omega) hr0
  have hmr : min (max count 1) (gomod s.cursor s.width) ≤ gomod s.cursor s.width :=
    min_le_right _ _
  have hoff_le : s.offset ≤ godiv s.cursor s.width * s.width := by
    by_contra hlt
    push_neg at hlt
    have hstep := mult_add_le hw (dvd_mul_left _ _) hdvd hlt
    linarith
  exact collapseSlotLt_valid _ (validState_mk_cursor s _ hw hh hacc hstk
    (by linarith) (by omega) hdvd ho0 (by linarith) (by linarith))

theorem cursorHead_valid (s : WState) (count : Int) (hv : ValidState s) :
    ValidState (cursorHead s count) := by
  obtain ⟨hw, hh, ⟨hc0, hcl, hdvd, ho0, holc, hcub⟩, hacc, hstk⟩ := hv
  show ValidState { s with cursor := s.cursor - gomod s.cursor s.width }
  have hr0 : 0 ≤ gomod s.cursor s.width := gomod_nonneg hc0 hw
  have hqr : godiv s.cursor s.width * s.width + gomod s.cursor s.width = s.cursor :=
    godiv_add_gomod hc0 hw
  have hoff_le : s.offset ≤ godiv s.cursor s.width * s.width := by
    by_contra hlt
    push_neg at hlt
    have hrw : gomod s.cursor s.width < s.width := gomod_lt hc0 hw
    have hstep := mult_add_le hw (dvd_mul_left _ _) hdvd hlt
    linarith
  exact validState_mk_cursor s _ hw hh hacc hstk (by linarith) (by omega) hdvd ho0
    (by linarith) (by linarith)

theorem cursorEnd_valid (s : WState) (count : Int) (hv : ValidState s) :
    ValidState (cursorEnd s count) := by
  obtain ⟨hw, hh, ⟨hc0, hcl, hdvd, ho0, holc, hcub⟩, hacc, hstk⟩ := hv
  show ValidState (scrollDownAdj { s with cursor := min ((godiv s.cursor s.width + max count 1) * s.width - 1) (max s.length 1 - 1) })
  have hq0 : 0 ≤ godiv s.cursor s.width := godiv_nonneg hc0 hw.le
  have hcqw : s.cursor < godiv s.cursor s.width * s.width + s.width := lt_godiv_mul_add hc0 hw
  have hmono : (godiv s.cursor s.width + 1) * s.width ≤ (godiv s.cursor s.width + max count 1) * s.width :=
    mul_le_mul_of_nonneg_right (by omega) hw.le
  have hcur_le : s.cursor ≤ (godiv s.cursor s.width + max count 1) * s.width - 1 := by
    nlinarith [hcqw, hmono]
  refine scrollDownAdj_valid _ (preDown_mk_cursor s _ hw hh hacc hstk
    (le_min (by linarith) (by omega)) (by omega) hdvd ho0
    (le_min (by linarith) (by omega)))

/-- Introduction lemma: validity of a state that just opened an append/extend
virtual slot at cursor `c`. -/
theorem validState_mk_extend (s : WState) (c : Int)
    (hw : 0 < s.width) (hh : 0 < s.height)
    (hacc1 : s.length + 1 = (s.content.length : Int) + 1)
    (hstk : ∀ p ∈ s.stack, StackInv s p)
    (hc0 : 0 ≤ c) (hcl : c < max (s.length + 1) 1) (hd : s.width ∣ s.offset)
    (h0 : 0 ≤ s.offset) (hol : s.offset ≤ c) (hub : c < s.offset + s.height * s.width) :
    ValidState { s with cursor := c, append := true, extending := true, length := s.length + 1 } :=
  ⟨hw, hh, ⟨hc0, hcl, hd, h0, hol, hub⟩, hacc1, hstk⟩

/-- Introduction lemma: the pre-down-scroll condition for a state that just
opened an append/extend virtual slot at cursor `c`. -/
theorem preDown_mk_extend (s : WState) (c : Int)
    (hw : 0 < s.width) (hh : 0 < s.height)
    (hacc1 : s.length + 1 = (s.content.length : Int) + 1)
    (hstk : ∀ p ∈ s.stack, StackInv s p)
    (hc0 : 0 ≤ c) (hcl : c < max (s.length + 1) 1) (hd : s.width ∣ s.offset)
    (h0 : 0 ≤ s.offset) (hol : s.offset ≤ c) :
    PreDown { s with cursor := c, append := true, extending := true, length := s.length + 1 } :=
  ⟨hw, hh, hc0, hcl, hd, h0, hol, hacc1, hstk⟩

theorem cursorRight_valid (s : WState) (m : Mode) (count : Int) (hv : ValidState s) :
    ValidState (cursorRight s m count) := by
  obtain ⟨hw, hh, ⟨hc0, hcl, hdvd, ho0, holc, hcub⟩, hacc, hstk⟩ := hv
  have hr0 : 0 ≤ gomod s.cursor s.width := gomod_nonneg hc0 hw
  have hrw : gomod s.cursor s.width < s.width := gomod_lt hc0 hw
  have hqr : godiv s.cursor s.width * s.width + gomod s.cursor s.width = s.cursor :=
    godiv_add_gomod hc0 hw
  have hrow : godiv s.cursor s.width * s.width + s.width ≤ s.offset + s.height * s.width := by
    refine mult_add_le hw (dvd_mul_left _ _) (dvd_add hdvd (dvd_mul_left _ _)) ?_
    linarith
  unfold cursorRight
  dsimp only
  split_ifs with hm hext hceq
  · have hin0 : 0 ≤ min (max count 1) (s.width - 1 - gomod s.cursor s.width) :=
      le_min (by omega) (by linarith)
    have hinr : min (max count 1) (s.width - 1 - gomod s.cursor s.width) ≤
        s.width - 1 - gomod s.cursor s.width := min_le_right _ _
    have hd0 : 0 ≤ min (min (max count 1) (s.width - 1 - gomod s.cursor s.width)) (max s.length 1 - 1 - s.cursor) :=
      le_min hin0 (by omega)
    have hdle : min (min (max count 1) (s.width - 1 - gomod s.cursor s.width)) (max s.length 1 - 1 - s.cursor) ≤ max s.length 1 - 1 - s.cursor := min_le_right _ _
    have hdin : min (min (max count 1) (s.width - 1 - gomod s.cursor s.width)) (max s.length 1 - 1 - s.cursor) ≤ s.width - 1 - gomod s.cursor s.width :=
      le_trans (min_le_left _ _) hinr
    exact validState_mk_cursor s _ hw hh hacc hstk (by linarith) (by omega) hdvd ho0
      (by linarith) (by linarith)
  · rw [hext] at hacc
    simp only [Bool.false_eq_true, if_false, add_zero] at hacc
    have hlen0 : (0 : Int) ≤ s.length := by
      rw [hacc]; exact Int.natCast_nonneg _
    have hin0 : 0 ≤ min (max count 1) (s.width - 1 - gomod s.cursor s.width) :=
      le_min (by omega) (by linarith)
    have hd0 : 0 ≤ min (min (max count 1) (s.width - 1 - gomod s.cursor s.width)) (s.length - s.cursor) :=
      le_min hin0 (by omega)
    have hdin : min (min (max count 1) (s.width - 1 - gomod s.cursor s.width)) (s.length - s.cursor) ≤ s.width - 1 - gomod s.cursor s.width :=
      le_trans (min_le_left _ _) (min_le_right _ _)
    exact validState_mk_extend s _ hw hh (by omega) hstk (by linarith) (by omega) hdvd ho0
      (by linarith) (by linarith)
  · rw [hext] at hacc
    simp only [Bool.false_eq_true, if_false, add_zero] at hacc
    have hlen0 : (0 : Int) ≤ s.length := by
      rw [hacc]; exact Int.natCast_nonneg _
    have hin0 : 0 ≤ min (max count 1) (s.width - 1 - gomod s.cursor s.width) :=
      le_min (by omega) (by linarith)
    have hd0 : 0 ≤ min (min (max count 1) (s.width - 1 - gomod s.cursor s.width)) (s.length - s.cursor) :=
      le_min hin0 (by omega)
    have hdle : min (min (max count 1) (s.width - 1 - gomod s.cursor s.width)) (s.length - s.cursor) ≤ s.length - s.cursor := min_le_right _ _
    have hdin : min (min (max count 1) (s.width - 1 - gomod s.cursor s.width)) (s.length - s.cursor) ≤ s.width - 1 - gomod s.cursor s.width :=
      le_trans (min_le_left _ _) (min_le_right _ _)
    exact validState_mk_cursor s _ hw hh (by rw [hext]; simpa using hacc) hstk
      (by linarith) (by omega) hdvd ho0 (by linarith) (by linarith)
  · exact ⟨hw, hh, ⟨hc0, hcl, hdvd, ho0, holc, hcub⟩, hacc, hstk⟩

theorem cursorPrev_valid (s : WState) (count : Int) (hv : ValidState s) :
    ValidState (cursorPrev s count) := by
  obtain ⟨hw, hh, ⟨hc0, hcl, hdvd, ho0, holc, hcub⟩, hacc, hstk⟩ := hv
  show ValidState (collapseSlotNe (scrollUpAdj { s with cursor := s.cursor - min (max count 1) s.cursor }))
  have hm0 : 0 ≤ min (max count 1) s.cursor := le_min (by omega) hc0
  have hmc : min (max count 1) s.cursor ≤ s.cursor := min_le_right _ _
  refine collapseSlotNe_valid _ (scrollUpAdj_valid _ (preUp_mk_cursor s _ hw hh hacc hstk
    (by linarith) (by omega) hdvd ho0 (by linarith))) ?_
  rw [scrollUpAdj_extending, scrollUpAdj_cursor, scrollUpAdj_length]
  dsimp only
  intro hext
  rw [hext] at hacc
  simp only [if_true] at hacc
  omega

theorem cursorNext_valid (s : WState) (m : Mode) (count : Int) (hv : ValidState s) :
    ValidState (cursorNext s m count) := by
  obtain ⟨hw, hh, ⟨hc0, hcl, hdvd, ho0, holc, hcub⟩, hacc, hstk⟩ := hv
  unfold cursorNext
  dsimp only
  refine scrollDownAdj_valid _ ?_
  split_ifs with hm hext hceq
  · have hd0 : 0 ≤ min (max count 1) (max s.length 1 - 1 - s.cursor) :=
      le_min (by omega) (by omega)
    have hdle : min (max count 1) (max s.length 1 - 1 - s.cursor) ≤ max s.length 1 - 1 - s.cursor :=
      min_le_right _ _
    exact preDown_mk_cursor s _ hw hh hacc hstk (by linarith) (by omega) hdvd ho0
      (by linarith)
  · rw [hext] at hacc
    simp only [Bool.false_eq_true, if_false, add_zero] at hacc
    have hlen0 : (0 : Int) ≤ s.length := by
      rw [hacc]; exact Int.natCast_nonneg _
    have hd0 : 0 ≤ min (max count 1) (s.length - s.cursor) := le_min (by omega) (by omega)
    exact preDown_mk_extend s _ hw hh (by omega) hstk (by linarith) (by omega) hdvd ho0
      (by linarith)
  · rw [hext] at hacc
    simp only [Bool.false_eq_true, if_false, add_zero] at hacc
    have hlen0 : (0 : Int) ≤ s.length := by
      rw [hacc]; exact Int.natCast_nonneg _
    have hd0 : 0 ≤ min (max count 1) (s.length - s.cursor) := le_min (by omega) (by omega)
    have hdle : min (max count 1) (s.length - s.cursor) ≤ s.length - s.cursor := min_le_right _ _
    exact preDown_mk_cursor s _ hw hh (by rw [hext]; simpa using hacc) hstk
      (by linarith) (by omega) hdvd ho0 (by linarith)
  · exact ⟨hw, hh, hc0, hcl, hdvd, ho0, holc, hacc, hstk⟩

/-- Introduction lemma: validity of a state whose offset and cursor were both
rewritten. -/
theorem validState_mk_oc (s : WState) (o c : Int)
    (hw : 0 < s.width) (hh : 0 < s.height)
    (hacc : s.length = (s.content.length : Int) + (if s.extending = true then 1 else 0))
    (hstk : ∀ p ∈ s.stack, StackInv s p)
    (hc0 : 0 ≤ c) (hcl : c < max s.length 1) (hd : s.width ∣ o) (h0 : 0 ≤ o)
    (hol : o ≤ c) (hub : c < o + s.height * s.width) :
    ValidState { s with offset := o, cursor := c } :=
  ⟨hw, hh, ⟨hc0, hcl, hd, h0, hol, hub⟩, hacc, hstk⟩

theorem scrollUp_valid (s : WState) (count : Int) (hv : ValidState s) :
    ValidState (scrollUp s count) := by
  obtain ⟨hw, hh, ⟨hc0, hcl, hdvd, ho0, holc, hcub⟩, hacc, hstk⟩ := hv
  have hwle : s.width ≤ s.height * s.width := le_mul_of_one_le_left hw.le hh
  have hko : godiv s.offset s.width * s.width = s.offset := godiv_mul_of_dvd hdvd ho0 hw
  have hk0 : 0 ≤ godiv s.offset s.width := godiv_nonneg ho0 hw.le
  unfold scrollUp
  dsimp only
  have hm0 : 0 ≤ min (max count 1) (godiv s.offset s.width) := le_min (by omega) hk0
  have hmk : min (max count 1) (godiv s.offset s.width) ≤ godiv s.offset s.width :=
    min_le_right _ _
  have hmw : min (max count 1) (godiv s.offset s.width) * s.width ≤
      godiv s.offset s.width * s.width :=
    mul_le_mul_of_nonneg_right hmk hw.le
  have hmw0 : 0 ≤ min (max count 1) (godiv s.offset s.width) * s.width :=
    mul_nonneg hm0 hw.le
  have hod : s.width ∣ s.offset - min (max count 1) (godiv s.offset s.width) * s.width :=
    dvd_sub hdvd (dvd_mul_left _ _)
  split_ifs with h
  · set o := s.offset - min (max count 1) (godiv s.offset s.width) * s.width with hodef
    set D := s.cursor - o - s.height * s.width with hD
    have hD0 : 0 ≤ D := by omega
    have gb1 : godiv D s.width * s.width ≤ D := godiv_mul_le hD0 hw
    have gb2 : D < godiv D s.width * s.width + s.width := lt_godiv_mul_add hD0 hw
    have hexp : (godiv D s.width + 1) * s.width = godiv D s.width * s.width + s.width := by
      ring
    refine validState_mk_oc s o _ hw hh hacc hstk ?_ ?_ hod (by linarith) ?_ ?_
    · linarith
    · have : s.cursor - (godiv D s.width + 1) * s.width < s.cursor := by
        have : 0 < (godiv D s.width + 1) * s.width := by nlinarith [godiv_nonneg hD0 hw.le]
        linarith
      omega
    · linarith
    · linarith
  · exact validState_mk_offset s _ hw hh hc0 hcl hacc hstk (by linarith) hod (by linarith)
      (by omega)

theorem scrollDown_valid (s : WState) (count : Int) (hv : ValidState s) :
    ValidState (scrollDown s count) := by
  obtain ⟨hw, hh, ⟨hc0, hcl, hdvd, ho0, holc, hcub⟩, hacc, hstk⟩ := hv
  have hwle : s.width ≤ s.height * s.width := le_mul_of_one_le_left hw.le hh
  have hko : godiv s.offset s.width * s.width = s.offset := godiv_mul_of_dvd hdvd ho0 hw
  unfold scrollDown
  dsimp only
  set A := godiv (max s.length 1 + s.width - 1) s.width with hA
  have hA1 : A * s.width ≤ max s.length 1 + s.width - 1 := godiv_mul_le (by omega) hw
  have hA2 : max s.length 1 + s.width - 1 < A * s.width + s.width :=
    lt_godiv_mul_add (by omega) hw
  have hAL : max s.length 1 ≤ A * s.width := by omega
  have hA0 : 1 ≤ A := by nlinarith [hAL, hw]
  set k := godiv s.offset s.width with hk
  set h2 := max (A - s.height) 0 with hh2
  have hh20 : 0 ≤ h2 := le_max_right _ _
  have h2w_le : h2 * s.width ≤ max s.length 1 - 1 := by
    rcases max_cases (A - s.height) 0 with ⟨heq, hge⟩ | ⟨heq, hlt⟩
    · rw [hh2, heq]
      have : (A - s.height) * s.width = A * s.width - s.height * s.width := by ring
      omega
    · rw [hh2, heq]
      simp
  set m := min (max count 1) (h2 - k) with hm
  have hmw : m * s.width ≤ (h2 - k) * s.width :=
    mul_le_mul_of_nonneg_right (min_le_right _ _) hw.le
  have ho'h2 : s.offset + m * s.width ≤ h2 * s.width := by
    have : (h2 - k) * s.width = h2 * s.width - k * s.width := by ring
    omega
  have ho'0 : 0 ≤ s.offset + m * s.width := by
    rcases min_cases (max count 1) (h2 - k) with ⟨heq, hge⟩ | ⟨heq, hlt⟩
    · have hm1 : 0 ≤ m := by omega
      nlinarith [hm1, hw]
    · rw [hm, heq]
      have : (h2 - k) * s.width = h2 * s.width - k * s.width := by ring
      nlinarith [hh20, hw]
  have hod : s.width ∣ s.offset + m * s.width := dvd_add hdvd (dvd_mul_left _ _)
  split_ifs with h
  · set o := s.offset + m * s.width with hodef
    set E := o - s.cursor + s.width - 1 with hE
    have hE0 : 0 ≤ E := by omega
    have gE1 : godiv E s.width * s.width ≤ E := godiv_mul_le hE0 hw
    have gE2 : E < godiv E s.width * s.width + s.width := lt_godiv_mul_add hE0 hw
    have hcmin0 : 0 ≤ min (godiv E s.width * s.width) (max s.length 1 - 1 - s.cursor) :=
      le_min (by omega) (by omega)
    have hcminl : min (godiv E s.width * s.width) (max s.length 1 - 1 - s.cursor) ≤
        godiv E s.width * s.width := min_le_left _ _
    have hcminr : min (godiv E s.width * s.width) (max s.length 1 - 1 - s.cursor) ≤
        max s.length 1 - 1 - s.cursor := min_le_right _ _
    refine validState_mk_oc s o _ hw hh hacc hstk (by omega) (by omega) hod ho'0 ?_
      (by omega)
    rcases min_cases (godiv E s.width * s.width) (max s.length 1 - 1 - s.cursor) with
      ⟨heq, _⟩ | ⟨heq, _⟩
    · rw [heq]; omega
    · rw [heq]; omega
  · refine validState_mk_offset s _ hw hh hc0 hcl hacc hstk ho'0 hod (by omega) ?_
    rcases min_cases (max count 1) (h2 - k) with ⟨heq, hge⟩ | ⟨heq, hlt⟩
    · have hm1 : 1 ≤ m := by omega
      have : s.width ≤ m * s.width := le_mul_of_one_le_left hw.le hm1
      nlinarith [hm1, hw, hcub]
    · have ho'eq : s.offset + m * s.width = h2 * s.width := by
        rw [hm, heq]
        have : (h2 - k) * s.width = h2 * s.width - k * s.width := by ring
        omega
      rw [ho'eq]
      rcases max_cases (A - s.height) 0 with ⟨heq2, hge2⟩ | ⟨heq2, hlt2⟩
      · rw [hh2, heq2]
        have : (A - s.height) * s.width + s.height * s.width = A * s.width := by ring
        omega
      · rw [hh2, heq2]
        have hAh : A ≤ s.height := by omega
        have : A * s.width ≤ s.height * s.width := mul_le_mul_of_nonneg_right hAh hw.le
        simp
        omega

theorem godiv_eq_zero_small {a w : Int} (ha : 0 ≤ a) (h : a < w) : godiv a w = 0 := by
  rw [godiv_eq_ediv ha (ha.trans h.le)]
  exact Int.ediv_eq_zero_of_lt ha h

theorem godiv_self_of_pos {w : Int} (hw : 0 < w) : godiv w w = 1 := by
  rw [godiv_eq_ediv hw.le hw.le]
  exact Int.ediv_self (ne_of_gt hw)

theorem pageUp_eq (s : WState) : pageUp s = pageUpWith s (getPageJump s) := rfl

theorem pageUpHalf_eq (s : WState) :
    pageUpHalf s = pageUpWith s (max (godiv s.height 2) 1) := rfl

theorem pageDown_eq (s : WState) : pageDown s = pageDownWith s (getPageJump s) := rfl

theorem pageDownHalf_eq (s : WState) :
    pageDownHalf s = pageDownWith s (max (godiv s.height 2) 1) := rfl

theorem pageUpWith_valid (s : WState) (j : Int) (hj : 0 ≤ j) (hv : ValidState s) :
    ValidState (pageUpWith s j) := by
  obtain ⟨hw, hh, ⟨hc0, hcl, hdvd, ho0, holc, hcub⟩, hacc, hstk⟩ := hv
  have hwle : s.width ≤ s.height * s.width := le_mul_of_one_le_left hw.le hh
  have hhw : 0 < s.height * s.width := mul_pos hh hw
  have hjw : 0 ≤ j * s.width := mul_nonneg hj hw.le
  unfold pageUpWith
  dsimp only
  set o := max (s.offset - j * s.width) 0 with ho'
  have ho'0 : 0 ≤ o := le_max_right _ _
  have ho'le : o ≤ s.offset := max_le (by omega) ho0
  have ho'd : s.width ∣ o := by
    rcases max_cases (s.offset - j * s.width) 0 with ⟨heq, _⟩ | ⟨heq, _⟩
    · rw [ho', heq]; exact dvd_sub hdvd (dvd_mul_left _ _)
    · rw [ho', heq]; exact dvd_zero _
  split_ifs with h0 hcb
  · exact validState_mk_oc s o 0 hw hh hacc hstk le_rfl (by omega) ho'd ho'0 (by omega)
      (by omega)
  · have hex : (s.height - 1) * s.width = s.height * s.width - s.width := by ring
    exact validState_mk_oc s o _ hw hh hacc hstk (by omega) (by omega) ho'd ho'0
      (by omega) (by omega)
  · exact validState_mk_offset s o hw hh hc0 hcl hacc hstk ho'0 ho'd (by omega) (by omega)

theorem pageDownWith_valid (s : WState) (j : Int) (hj : 0 ≤ j) (hv : ValidState s) :
    ValidState (pageDownWith s j) := by
  obtain ⟨hw, hh, ⟨hc0, hcl, hdvd, ho0, holc, hcub⟩, hacc, hstk⟩ := hv
  have hwle : s.width ≤ s.height * s.width := le_mul_of_one_le_left hw.le hh
  have hhw : 0 < s.height * s.width := mul_pos hh hw
  have hjw : 0 ≤ j * s.width := mul_nonneg hj hw.le
  have hlen0 : (0 : Int) ≤ s.length := by
    have h := hacc
    have := Int.natCast_nonneg s.content.length
    split_ifs at h <;> omega
  unfold pageDownWith
  dsimp only
  set B := godiv (s.length + s.width - 1) s.width with hB
  set A := godiv (max s.length 1 + s.width - 1) s.width with hA
  have hB1 : B * s.width ≤ s.length + s.width - 1 := godiv_mul_le (by omega) hw
  have hB0 : 0 ≤ B := godiv_nonneg (by omega) hw.le
  have hA1 : A * s.width ≤ max s.length 1 + s.width - 1 := godiv_mul_le (by omega) hw
  have hA2 : max s.length 1 + s.width - 1 < A * s.width + s.width :=
    lt_godiv_mul_add (by omega) hw
  have hAL : max s.length 1 ≤ A * s.width := by omega
  have hA0 : 1 ≤ A := by nlinarith [hAL, hw]
  have hAB : (s.length = 0 ∧ A = 1 ∧ B = 0) ∨ (1 ≤ s.length ∧ A = B) := by
    by_cases hl : s.length = 0
    · left
      refine ⟨hl, ?_, ?_⟩
      · rw [hA, hl]
        have h1 : max (0 : Int) 1 + s.width - 1 = s.width := by
          simp
        rw [h1]
        exact godiv_self_of_pos hw
      · rw [hB, hl]
        have h1 : (0 : Int) + s.width - 1 = s.width - 1 := by ring
        rw [h1]
        exact godiv_eq_zero_small (by omega) (by omega)
    · right
      refine ⟨by omega, ?_⟩
      rw [hA, hB]
      have h1 : max s.length 1 = s.length := by omega
      rw [h1]
  set off := max ((B - s.height) * s.width) 0 with hoff
  have hoff0 : 0 ≤ off := le_max_right _ _
  have hoffd : s.width ∣ off := by
    rcases max_cases ((B - s.height) * s.width) 0 with ⟨heq, _⟩ | ⟨heq, _⟩
    · rw [hoff, heq]
      have : (B - s.height) * s.width = B * s.width - s.height * s.width := by ring
      rw [this]
      exact dvd_sub (dvd_mul_left _ _) (dvd_mul_left _ _)
    · rw [hoff, heq]; exact dvd_zero _
  have hoffle : off ≤ max s.length 1 - 1 := by
    rcases max_cases ((B - s.height) * s.width) 0 with ⟨heq, hge⟩ | ⟨heq, _⟩
    · rw [hoff, heq]
      have hr : (B - s.height) * s.width = B * s.width - s.height * s.width := by ring
      omega
    · rw [hoff, heq]; omega
  set o := min (s.offset + j * s.width) off with ho'
  have ho'0 : 0 ≤ o := le_min (by omega) hoff0
  have ho'le : o ≤ off := min_le_right _ _
  have ho'd : s.width ∣ o := by
    rcases min_cases (s.offset + j * s.width) off with ⟨heq, _⟩ | ⟨heq, _⟩
    · rw [ho', heq]; exact dvd_add hdvd (dvd_mul_left _ _)
    · rw [ho', heq]; exact hoffd
  split_ifs with h1 h2
  · exact validState_mk_oc s o o hw hh hacc hstk ho'0 (by omega) ho'd ho'0 le_rfl
      (by omega)
  · have hcex : (A - 1) * s.width = A * s.width - s.width := by ring
    have hc'0 : 0 ≤ (A - 1) * s.width := mul_nonneg (by omega) hw.le
    have hc'le : (A - 1) * s.width ≤ max s.length 1 - 1 := by omega
    refine validState_mk_oc s o _ hw hh hacc hstk hc'0 (by omega) ho'd ho'0 ?_ ?_
    · rw [h2]
      rcases max_cases ((B - s.height) * s.width) 0 with ⟨heq, hge⟩ | ⟨heq, _⟩
      · rcases hAB with ⟨hl, hA1', hB1'⟩ | ⟨hl, hABeq⟩
        · have hneg : (B - s.height) * s.width = -(s.height * s.width) := by
            rw [hB1']; ring
          omega
        · rw [hoff, heq, ← hABeq]
          exact mul_le_mul_of_nonneg_right (by omega) hw.le
      · rw [hoff, heq]
        exact hc'0
    · rw [h2]
      rcases max_cases ((B - s.height) * s.width) 0 with ⟨heq, hge⟩ | ⟨heq, hlt⟩
      · rcases hAB with ⟨hl, hA1', hB1'⟩ | ⟨hl, hABeq⟩
        · have hneg : (B - s.height) * s.width = -(s.height * s.width) := by
            rw [hB1']; ring
          omega
        · rw [hoff, heq, ← hABeq]
          have hr : (A - s.height) * s.width = A * s.width - s.height * s.width := by ring
          omega
      · rw [hoff, heq]
        rcases hAB with ⟨hl, hA1', hB1'⟩ | ⟨hl, hABeq⟩
        · rw [hA1']
          simpa using hhw
        · have hBh : B < s.height := by
            by_contra hcon
            push_neg at hcon
            have : 0 ≤ (B - s.height) * s.width := mul_nonneg (by omega) hw.le
            omega
          have hAw : A * s.width ≤ s.height * s.width :=
            mul_le_mul_of_nonneg_right (by omega) hw.le
          omega
  · refine validState_mk_offset s o hw hh hc0 hcl hacc hstk ho'0 ho'd (by omega) ?_
    rcases min_cases (s.offset + j * s.width) off with ⟨heq, _⟩ | ⟨heq, _⟩
    · rw [ho', heq]
      omega
    · exact absurd (by rw [ho', heq] : o = off) h2

theorem getPageJump_nonneg (s : WState) (hh : 0 < s.height) : 0 ≤ getPageJump s :=
  godiv_nonneg (by nlinarith) (by norm_num)

theorem pageUp_valid (s : WState) (hv : ValidState s) : ValidState (pageUp s) := by
  rw [pageUp_eq]
  exact pageUpWith_valid s _ (getPageJump_nonneg s hv.2.1) hv

theorem pageUpHalf_valid (s : WState) (hv : ValidState s) : ValidState (pageUpHalf s) := by
  rw [pageUpHalf_eq]
  exact pageUpWith_valid s _ (le_trans zero_le_one (le_max_right _ _)) hv

theorem pageDown_valid (s : WState) (hv : ValidState s) : ValidState (pageDown s) := by
  rw [pageDown_eq]
  exact pageDownWith_valid s _ (getPageJump_nonneg s hv.2.1) hv

theorem pageDownHalf_valid (s : WState) (hv : ValidState s) :
    ValidState (pageDownHalf s) := by
  rw [pageDownHalf_eq]
  exact pageDownWith_valid s _ (le_trans zero_le_one (le_max_right _ _)) hv

theorem pageTop_valid (s : WState) (hv : ValidState s) : ValidState (pageTop s) := by
  obtain ⟨hw, hh, ⟨hc0, hcl, hdvd, ho0, holc, hcub⟩, hacc, hstk⟩ := hv
  have hhw : 0 < s.height * s.width := mul_pos hh hw
  exact validState_mk_oc s 0 0 hw hh hacc hstk le_rfl (by omega) (dvd_zero _) le_rfl
    le_rfl (by omega)

theorem pageEnd_valid (s : WState) (hv : ValidState s) : ValidState (pageEnd s) := by
  obtain ⟨hw, hh, ⟨hc0, hcl, hdvd, ho0, holc, hcub⟩, hacc, hstk⟩ := hv
  have hwle : s.width ≤ s.height * s.width := le_mul_of_one_le_left hw.le hh
  have hhw : 0 < s.height * s.width := mul_pos hh hw
  have hlen0 : (0 : Int) ≤ s.length := by
    have h := hacc
    have := Int.natCast_nonneg s.content.length
    split_ifs at h <;> omega
  unfold pageEnd
  set B := godiv (s.length + s.width - 1) s.width with hB
  set A := godiv (max s.length 1 + s.width - 1) s.width with hA
  have hB1 : B * s.width ≤ s.length + s.width - 1 := godiv_mul_le (by omega) hw
  have hB0 : 0 ≤ B := godiv_nonneg (by omega) hw.le
  have hA1 : A * s.width ≤ max s.length 1 + s.width - 1 := godiv_mul_le (by omega) hw
  have hA2 : max s.length 1 + s.width - 1 < A * s.width + s.width :=
    lt_godiv_mul_add (by omega) hw
  have hAL : max s.length 1 ≤ A * s.width := by omega
  have hA0 : 1 ≤ A := by nlinarith [hAL, hw]
  have hAB : (s.length = 0 ∧ A = 1 ∧ B = 0) ∨ (1 ≤ s.length ∧ A = B) := by
    by_cases hl : s.length = 0
    · left
      refine ⟨hl, ?_, ?_⟩
      · rw [hA, hl]
        have h1 : max (0 : Int) 1 + s.width - 1 = s.width := by simp
        rw [h1]
        exact godiv_self_of_pos hw
      · rw [hB, hl]
        have h1 : (0 : Int) + s.width - 1 = s.width - 1 := by ring
        rw [h1]
        exact godiv_eq_zero_small (by omega) (by omega)
    · right
      refine ⟨by omega, ?_⟩
      rw [hA, hB]
      have h1 : max s.length 1 = s.length := by omega
      rw [h1]
  set off := max ((B - s.height) * s.width) 0 with hoff
  have hoff0 : 0 ≤ off := le_max_right _ _
  have hoffd : s.width ∣ off := by
    rcases max_cases ((B - s.height) * s.width) 0 with ⟨heq, _⟩ | ⟨heq, _⟩
    · rw [hoff, heq]
      have : (B - s.height) * s.width = B * s.width - s.height * s.width := by ring
      rw [this]
      exact dvd_sub (dvd_mul_left _ _) (dvd_mul_left _ _)
    · rw [hoff, heq]; exact dvd_zero _
  have hcex : (A - 1) * s.width = A * s.width - s.width := by ring
  have hc'0 : 0 ≤ (A - 1) * s.width := mul_nonneg (by omega) hw.le
  have hc'le : (A - 1) * s.width ≤ max s.length 1 - 1 := by omega
  refine validState_mk_oc s off _ hw hh hacc hstk hc'0 (by omega) hoffd hoff0 ?_ ?_
  · rcases max_cases ((B - s.height) * s.width) 0 with ⟨heq, hge⟩ | ⟨heq, _⟩
    · rcases hAB with ⟨hl, hA1', hB1'⟩ | ⟨hl, hABeq⟩
      · have hneg : (B - s.height) * s.width = -(s.height * s.width) := by
          rw [hB1']; ring
        omega
      · rw [hoff, heq, ← hABeq]
        exact mul_le_mul_of_nonneg_right (by omega) hw.le
    · rw [hoff, heq]
      exact hc'0
  · rcases max_cases ((B - s.height) * s.width) 0 with ⟨heq, hge⟩ | ⟨heq, hlt⟩
    · rcases hAB with ⟨hl, hA1', hB1'⟩ | ⟨hl, hABeq⟩
      · have hneg : (B - s.height) * s.width = -(s.height * s.width) := by
          rw [hB1']; ring
        omega
      · rw [hoff, heq, ← hABeq]
        have hr : (A - s.height) * s.width = A * s.width - s.height * s.width := by ring
        omega
    · rw [hoff, heq]
      rcases hAB with ⟨hl, hA1', hB1'⟩ | ⟨hl, hABeq⟩
      · rw [hA1']
        simpa using hhw
      · have hBh : B < s.height := by
          by_contra hcon
          push_neg at hcon
          have : 0 ≤ (B - s.height) * s.width := mul_nonneg (by omega) hw.le
          omega
        have hAw : A * s.width ≤ s.height * s.width :=
          mul_le_mul_of_nonneg_right (by omega) hw.le
        omega

theorem cursorGotoPos_valid (s : WState) (pos : Position) (hv : ValidState s) :
    ValidState (cursorGotoPos s pos) := by
  obtain ⟨hw, hh, ⟨hc0, hcl, hdvd, ho0, holc, hcub⟩, hacc, hstk⟩ := hv
  have hwle : s.width ≤ s.height * s.width := le_mul_of_one_le_left hw.le hh
  have hhw : 0 < s.height * s.width := mul_pos hh hw
  unfold cursorGotoPos
  split
  · exact ⟨hw, hh, ⟨hc0, hcl, hdvd, ho0, holc, hcub⟩, hacc, hstk⟩
  · rename_i off _
    dsimp only
    set c := max (min off (max s.length 1 - 1)) 0 with hc
    have hc0' : 0 ≤ c := le_max_right _ _
    have hcle : c ≤ max s.length 1 - 1 :=
      max_le (le_trans (min_le_right _ _) le_rfl) (by omega)
    have hqc0 : 0 ≤ godiv c s.width := godiv_nonneg hc0' hw.le
    have hqc1 : godiv c s.width * s.width ≤ c := godiv_mul_le hc0' hw
    have hqc2 : c < godiv c s.width * s.width + s.width := lt_godiv_mul_add hc0' hw
    have hg20 : 0 ≤ godiv s.height 2 := godiv_nonneg hh.le (by norm_num)
    have hg2h : godiv s.height 2 ≤ s.height - 1 := godiv_le_pred hh (by norm_num)
    have hg2w : godiv s.height 2 * s.width ≤ (s.height - 1) * s.width :=
      mul_le_mul_of_nonneg_right hg2h hw.le
    have hg2w' : (s.height - 1) * s.width = s.height * s.width - s.width := by ring
    split_ifs with hlt hge
    · rcases max_cases (godiv c s.width) (godiv s.height 2) with ⟨heq, hge2⟩ | ⟨heq, hlt2⟩
      · rw [heq]
        have hr : (godiv c s.width - godiv s.height 2) * s.width =
            godiv c s.width * s.width - godiv s.height 2 * s.width := by ring
        have hg2wn : 0 ≤ godiv s.height 2 * s.width := mul_nonneg hg20 hw.le
        have hmul : godiv s.height 2 * s.width ≤ godiv c s.width * s.width :=
          mul_le_mul_of_nonneg_right hge2 hw.le
        refine validState_mk_oc s _ c hw hh hacc hstk hc0' (by omega)
          (hr ▸ dvd_sub (dvd_mul_left _ _) (dvd_mul_left _ _))
          (by omega) (by omega) (by omega)
      · rw [heq]
        have hr : (godiv s.height 2 - godiv s.height 2) * s.width = 0 := by ring
        have hqcle : godiv c s.width * s.width ≤ (godiv s.height 2 - 1) * s.width :=
          mul_le_mul_of_nonneg_right (by omega) hw.le
        have hr2 : (godiv s.height 2 - 1) * s.width =
            godiv s.height 2 * s.width - s.width := by ring
        refine validState_mk_oc s _ c hw hh hacc hstk hc0' (by omega)
          (hr ▸ dvd_zero _) (by omega) (by omega) (by omega)
    · set F := c - s.height * s.width + s.width with hF
      have hF0 : 0 ≤ F := by omega
      have hqF1 : godiv F s.width * s.width ≤ F := godiv_mul_le hF0 hw
      have hqF2 : F < godiv F s.width * s.width + s.width := lt_godiv_mul_add hF0 hw
      have hA1 : godiv (max s.length 1 + s.width - 1) s.width * s.width ≤
          max s.length 1 + s.width - 1 := godiv_mul_le (by omega) hw
      have hA2 : max s.length 1 + s.width - 1 <
          godiv (max s.length 1 + s.width - 1) s.width * s.width + s.width :=
        lt_godiv_mul_add (by omega) hw
      have hAL : max s.length 1 ≤ godiv (max s.length 1 + s.width - 1) s.width * s.width := by
        omega
      rcases min_cases (godiv F s.width + godiv s.height 2)
          (godiv (max s.length 1 + s.width - 1) s.width - s.height) with
        ⟨heq, hle2⟩ | ⟨heq, hlt2⟩
      · rw [heq]
        have hr : (godiv F s.width + godiv s.height 2) * s.width =
            godiv F s.width * s.width + godiv s.height 2 * s.width := by ring
        have hqF0 : 0 ≤ godiv F s.width := godiv_nonneg hF0 hw.le
        have hg2wn : 0 ≤ godiv s.height 2 * s.width := mul_nonneg hg20 hw.le
        refine validState_mk_oc s _ c hw hh hacc hstk hc0' (by omega)
          (dvd_mul_left _ _) (by nlinarith [hqF0, hg20, hw]) (by omega) (by omega)
      · rw [heq]
        have hAh : s.height <
            godiv (max s.length 1 + s.width - 1) s.width := by
          have hchw : s.height * s.width < max s.length 1 := by omega
          by_contra hcon
          push_neg at hcon
          have : godiv (max s.length 1 + s.width - 1) s.width * s.width ≤
              s.height * s.width := mul_le_mul_of_nonneg_right hcon hw.le
          omega
        have hr : (godiv (max s.length 1 + s.width - 1) s.width - s.height) * s.width =
            godiv (max s.length 1 + s.width - 1) s.width * s.width -
              s.height * s.width := by ring
        have holeft : (godiv (max s.length 1 + s.width - 1) s.width - s.height) * s.width ≤
            (godiv F s.width + godiv s.height 2) * s.width :=
          mul_le_mul_of_nonneg_right (by omega) hw.le
        have hr2 : (godiv F s.width + godiv s.height 2) * s.width =
            godiv F s.width * s.width + godiv s.height 2 * s.width := by ring
        refine validState_mk_oc s _ c hw hh hacc hstk hc0' (by omega)
          (dvd_mul_left _ _) (by nlinarith [hAh, hw]) (by omega) (by omega)
    · exact validState_mk_cursor s c hw hh hacc hstk hc0' (by omega) hdvd ho0 (by omega)
        (by omega)

theorem cursorGoto_valid (s : WState) (e : Event) (hv : ValidState s) :
    ValidState (cursorGoto s e) := by
  unfold cursorGoto
  split
  · exact hv
  · split
    · exact cursorGotoPos_valid _ _ hv
    · split
      · exact cursorGotoPos_valid _ _ hv
      · exact hv

theorem jumpBack_valid (s : WState) (hv : ValidState s) : ValidState (jumpBack s) := by
  obtain ⟨hw, hh, ⟨hc0, hcl, hdvd, ho0, holc, hcub⟩, hacc, hstk⟩ := hv
  unfold jumpBack
  split
  · exact ⟨hw, hh, ⟨hc0, hcl, hdvd, ho0, holc, hcub⟩, hacc, hstk⟩
  · rename_i p heq
    have hmem : p ∈ s.stack := List.mem_of_mem_getLast? heq
    obtain ⟨hp0, hpd, hpol, hpub, hpcl⟩ := hstk p hmem
    have hlenc : (s.content.length : Int) ≤ s.length := by
      have h := hacc
      split_ifs at h <;> omega
    refine ⟨hw, hh, ⟨by dsimp only; omega, by dsimp only; omega, hpd, hp0, hpol, hpub⟩,
      hacc, ?_⟩
    intro q hq
    exact hstk q ((List.dropLast_sublist s.stack).subset hq)

theorem getD_range_map (n : Nat) (f : Nat → Int) (i : Nat) (hi : i < n) :
    ((List.range n).map f).getD i 0 = f i := by
  rw [List.getD_eq_getElem _ _ (by simpa using hi)]
  simp

/-- A successful `jumpTo` scan implies the cursor sits strictly inside the real
content: the first non-white byte found at or right of the cursor is a digit,
and digits are nonzero while every byte past end-of-content reads zero. -/
theorem jumpScan_cursor_lt (s : WState) (v : Int) (h : jumpScan s = some v) :
    s.cursor < (s.content.length : Int) := by
  unfold jumpScan goReadBytes at h
  dsimp only at h
  rw [if_neg (not_lt.2 (le_max_right (s.cursor - 50) 0))] at h
  dsimp only at h
  generalize hf : (fun i : Nat => readByte s.content (max (s.cursor - 50) 0 + (i : Int))) = f at h
  split_ifs at h with h1 h2
  push_neg at h1
  obtain ⟨hne, hdig⟩ := h1
  set tw := ((((List.range 100).map f).drop 50).takeWhile isWhiteB).length with htwdef
  have htwle : tw ≤ 50 := by
    have h50 : (((List.range 100).map f).drop 50).length = 50 := by simp
    rw [htwdef]
    exact le_trans (List.Sublist.length_le (List.takeWhile_sublist _)) (le_of_eq h50)
  have hi0 : 50 + tw < 100 := by omega
  rw [getD_range_map 100 f (50 + tw) hi0] at hdig
  rw [← hf] at hdig
  dsimp only at hdig
  unfold isDigitB at hdig
  rw [decide_eq_true_eq] at hdig
  obtain ⟨h48, _⟩ := hdig
  unfold readByte at h48
  split at h48
  · rename_i hin
    have hk : s.cursor ≤ max (s.cursor - 50) 0 + ((50 + tw : Nat) : Int) := by
      have := le_max_left (s.cursor - 50) (0 : Int)
      omega
    omega
  · exact absurd h48 (by norm_num)

theorem jumpTo_valid (s : WState) (hv : ValidState s) : ValidState (jumpTo s) := by
  obtain ⟨hw, hh, ⟨hc0, hcl, hdvd, ho0, holc, hcub⟩, hacc, hstk⟩ := hv
  have hwle : s.width ≤ s.height * s.width := le_mul_of_one_le_left hw.le hh
  unfold jumpTo
  split
  · exact ⟨hw, hh, ⟨hc0, hcl, hdvd, ho0, holc, hcub⟩, hacc, hstk⟩
  · rename_i v heq
    split_ifs with hv0
    · exact ⟨hw, hh, ⟨hc0, hcl, hdvd, ho0, holc, hcub⟩, hacc, hstk⟩
    · push_neg at hv0
      obtain ⟨hvpos, hvlen⟩ := hv0
      have hclt := jumpScan_cursor_lt s v heq
      have hr0 : 0 ≤ gomod v s.width := gomod_nonneg hvpos.le hw
      have hrw : gomod v s.width < s.width := gomod_lt hvpos.le hw
      have hqr : godiv v s.width * s.width + gomod v s.width = v :=
        godiv_add_gomod hvpos.le hw
      have hvr : v - gomod v s.width = godiv v s.width * s.width := by omega
      have hg30 : 0 ≤ godiv s.height 3 := godiv_nonneg hh.le (by norm_num)
      have hg3max : max (godiv s.height 3) 0 = godiv s.height 3 := max_eq_left hg30
      have hg3h : godiv s.height 3 ≤ s.height - 1 := godiv_le_pred hh (by norm_num)
      have hg3w : godiv s.height 3 * s.width ≤ (s.height - 1) * s.width :=
        mul_le_mul_of_nonneg_right hg3h hw.le
      have hg3w' : (s.height - 1) * s.width = s.height * s.width - s.width := by ring
      have hg3wn : 0 ≤ godiv s.height 3 * s.width := mul_nonneg hg30 hw.le
      rw [hg3max]
      have hO0 : (0 : Int) ≤ max (v - gomod v s.width - godiv s.height 3 * s.width) 0 :=
        le_max_right _ _
      have hOd : s.width ∣ max (v - gomod v s.width - godiv s.height 3 * s.width) 0 := by
        rcases max_cases (v - gomod v s.width - godiv s.height 3 * s.width) (0 : Int) with
          ⟨heq2, _⟩ | ⟨heq2, _⟩
        · rw [heq2, hvr]
          exact dvd_sub (dvd_mul_left _ _) (dvd_mul_left _ _)
        · rw [heq2]; exact dvd_zero _
      have hOle : max (v - gomod v s.width - godiv s.height 3 * s.width) 0 ≤ v :=
        max_le (by omega) hvpos.le
      have hOub : v < max (v - gomod v s.width - godiv s.height 3 * s.width) 0 +
          s.height * s.width := by
        rcases max_cases (v - gomod v s.width - godiv s.height 3 * s.width) (0 : Int) with
          ⟨heq2, _⟩ | ⟨heq2, hlt2⟩
        · rw [heq2]; omega
        · rw [heq2]; omega
      have hvmax : v < max s.length 1 := by omega
      refine ⟨hw, hh, ⟨hvpos.le, hvmax, hOd, hO0, hOle, hOub⟩, hacc, ?_⟩
      intro p hp
      rcases List.mem_append.1 hp with hpm | hpm
      · exact hstk p hpm
      · have hpe : p = (s.cursor, s.offset) := by simpa using hpm
        subst hpe
        exact ⟨ho0, hdvd, holc, hcub, by dsimp only; omega⟩

theorem dispatch_valid_nav (e : Event) (s : WState) (hnav : navRange e.etype = true)
    (hv : ValidState s) : ValidState (dispatch e s) := by
  obtain ⟨et, m, cnt, r, arg, rng⟩ := e
  unfold dispatch
  cases et
  case cursorUp => exact cursorUp_valid _ _ hv
  case cursorDown => exact cursorDown_valid _ _ hv
  case cursorLeft => exact cursorLeft_valid _ _ hv
  case cursorRight => exact cursorRight_valid _ _ _ hv
  case cursorPrev => exact cursorPrev_valid _ _ hv
  case cursorNext => exact cursorNext_valid _ _ _ hv
  case cursorHead => exact cursorHead_valid _ _ hv
  case cursorEnd => exact cursorEnd_valid _ _ hv
  case cursorGoto => exact cursorGoto_valid _ _ hv
  case scrollUp => exact scrollUp_valid _ _ hv
  case scrollDown => exact scrollDown_valid _ _ hv
  case pageUp => exact pageUp_valid _ hv
  case pageDown => exact pageDown_valid _ hv
  case pageUpHalf => exact pageUpHalf_valid _ hv
  case pageDownHalf => exact pageDownHalf_valid _ hv
  case pageTop => exact pageTop_valid _ hv
  case pageEnd => exact pageEnd_valid _ hv
  case jumpTo => exact jumpTo_valid _ hv
  case jumpBack => exact jumpBack_valid _ hv
  case deleteByte => simp [navRange] at hnav
  case deletePrevByte => simp [navRange] at hnav
  case increment => simp [navRange] at hnav
  case decrement => simp [navRange] at hnav
  case startInsert => simp [navRange] at hnav
  case startInsertHead => simp [navRange] at hnav
  case startAppend => simp [navRange] at hnav
  case startAppendEnd => simp [navRange] at hnav
  case startReplaceByte => simp [navRange] at hnav
  case startReplace => simp [navRange] at hnav
  case exitInsert => simp [navRange] at hnav
  case rune => simp [navRange] at hnav
  case backspace => simp [navRange] at hnav
  case delete => simp [navRange] at hnav
  case startVisual => simp [navRange] at hnav
  case switchVisualEnd => simp [navRange] at hnav
  case exitVisual => simp [navRange] at hnav
  case switchFocus => simp [navRange] at hnav
  case undo => simp [navRange] at hnav
  case redo => simp [navRange] at hnav
  case executeSearch => simp [navRange] at hnav
  case nextSearch => simp [navRange] at hnav
  case previousSearch => simp [navRange] at hnav

theorem runStep_valid (e : Event) (s : WState) (hnav : navRange e.etype = true)
    (hv : ValidState s) : ValidState (runStep e s) := by
  have hd := dispatch_valid_nav e s hnav hv
  unfold runStep
  dsimp only
  split_ifs <;> exact hd

theorem runSeq_valid (es : List Event) (s : WState)
    (hnav : ∀ e ∈ es, navRange e.etype = true) (hv : ValidState s) :
    ValidState (runSeq es s) := by
  induction es generalizing s with
  | nil => exact hv
  | cons e es ih =>
    exact ih (runStep e s) (fun e' he' => hnav e' (List.mem_cons_of_mem _ he'))
      (runStep_valid e s (hnav e (List.mem_cons_self _ _)) hv)

theorem navDemoState_valid : ValidState navDemoState := by
  refine ⟨one_pos, one_pos, ⟨le_refl _, by norm_num [navDemoState], one_dvd _, le_refl _,
    le_refl _, by norm_num [navDemoState]⟩, by norm_num [navDemoState],
    by simp [navDemoState, StackInv]⟩

/-- C1: for every sequence of navigation commands (cursor up/down/left/right,
prev/next, head/end, goto, scroll, page movement, jump) executed through the
run loop from a valid initial state with `width > 0` and `height > 0`, after
each command the window satisfies `0 ≤ cursor < max(length,1)`, the viewport
offset is a multiple of the width, and
`offset ≤ cursor < offset + height*width` when content is non-empty. -/
theorem c1_navigation_invariants (es : List Event) (s : WState)
    (hv : ValidState s) (hnav : ∀ e ∈ es, navRange e.etype = true) (n : Nat) :
    ClaimC1Inv (runSeq (es.take n) s) := by
  obtain ⟨hw, hh, ⟨hc0, hcl, hdvd, ho0, holc, hcub⟩, hacc, hstk⟩ :=
    runSeq_valid (es.take n) s (fun e he => hnav e (List.take_subset n es he)) hv
  exact ⟨hc0, hcl, hdvd, fun _ => ⟨holc, hcub⟩⟩

/-- Witness for C1: a concrete two-command navigation run from a concrete
valid state. -/
theorem c1_navigation_invariants_witness :
    ClaimC1Inv (runSeq (([{ etype := .cursorDown, count := 1 },
      { etype := .cursorRight, mode := .normal, count := 1 }] : List Event).take 2)
      navDemoState) :=
  c1_navigation_invariants _ navDemoState navDemoState_valid (by decide) 2

theorem scrollDownAdj_append (s : WState) : (scrollDownAdj s).append = s.append := by
  unfold scrollDownAdj; split_ifs <;> rfl

theorem scrollDownAdj_extending (s : WState) : (scrollDownAdj s).extending = s.extending := by
  unfold scrollDownAdj; split_ifs <;> rfl

theorem scrollDownAdj_pending (s : WState) : (scrollDownAdj s).pending = s.pending := by
  unfold scrollDownAdj; split_ifs <;> rfl

theorem scrollDownAdj_pendingByte (s : WState) :
    (scrollDownAdj s).pendingByte = s.pendingByte := by
  unfold scrollDownAdj; split_ifs <;> rfl

theorem exitInsert_length_eq (t : WState) :
    (exitInsert t).length =
      (if t.append = true ∧ t.extending = true ∧ 0 < t.length then t.length - 1
       else t.length) := by
  unfold exitInsert
  dsimp only
  by_cases h1 : t.append = true
  · rw [if_pos h1]
    by_cases h2 : t.extending = true ∧ 0 < t.length
    · rw [if_pos h2]
      by_cases h3 : 0 < t.cursor
      · rw [if_pos h3, if_pos ⟨h1, h2.1, h2.2⟩]
      · rw [if_neg h3, if_pos ⟨h1, h2.1, h2.2⟩]
    · rw [if_neg h2]
      by_cases h3 : 0 < t.cursor
      · rw [if_pos h3, if_neg (by tauto)]
      · rw [if_neg h3, if_neg (by tauto)]
  · rw [if_neg h1, if_neg (by tauto)]

theorem exitInsert_cursor_eq (t : WState) :
    (exitInsert t).cursor =
      (if t.append = true ∧ 0 < t.cursor then t.cursor - 1 else t.cursor) := by
  unfold exitInsert
  dsimp only
  by_cases h1 : t.append = true
  · rw [if_pos h1]
    by_cases h2 : t.extending = true ∧ 0 < t.length
    · rw [if_pos h2]
      by_cases h3 : 0 < t.cursor
      · rw [if_pos h3, if_pos ⟨h1, h3⟩]
      · rw [if_neg h3, if_neg (by tauto)]
    · rw [if_neg h2]
      by_cases h3 : 0 < t.cursor
      · rw [if_pos h3, if_pos ⟨h1, h3⟩]
      · rw [if_neg h3, if_neg (by tauto)]
  · rw [if_neg h1, if_neg (by tauto)]

/-- C2: with the cursor at end-of-content, entering append (or insert, which
on non-empty content can only sit at end-of-content when the content is empty)
opens a virtual trailing slot, and exiting insert without committing any byte
restores both `length` and `cursor` to their values before entry. -/
theorem c2_virtual_slot_reversible (s : WState) (hlen : 0 ≤ s.length)
    (hcur : s.cursor = max s.length 1 - 1) :
    ((exitInsert (startAppend s)).length = s.length ∧
      (exitInsert (startAppend s)).cursor = s.cursor) ∧
    (s.length = 0 →
      (exitInsert (startInsert s)).length = s.length ∧
      (exitInsert (startInsert s)).cursor = s.cursor) := by
  have hA : (startAppend s).length = s.length + 1 ∧ (startAppend s).cursor = s.length ∧
      (startAppend s).append = true ∧ (startAppend s).extending = true := by
    unfold startAppend
    dsimp only
    by_cases hl : 0 < s.length
    · rw [if_pos hl, if_pos (show s.cursor + 1 = s.length by omega)]
      rw [scrollDownAdj_length, scrollDownAdj_cursor, scrollDownAdj_append,
        scrollDownAdj_extending]
      exact ⟨rfl, by dsimp only; omega, rfl, rfl⟩
    · rw [if_neg hl, if_pos (show s.cursor = s.length by omega)]
      rw [scrollDownAdj_length, scrollDownAdj_cursor, scrollDownAdj_append,
        scrollDownAdj_extending]
      exact ⟨rfl, by dsimp only; omega, rfl, rfl⟩
  constructor
  · obtain ⟨hL, hC, hAp, hEx⟩ := hA
    constructor
    · rw [exitInsert_length_eq, if_pos ⟨hAp, hEx, by omega⟩, hL]
      omega
    · rw [exitInsert_cursor_eq]
      by_cases hl : 0 < s.length
      · rw [if_pos ⟨hAp, by omega⟩, hC]
        omega
      · rw [if_neg (fun h => by have h2 := h.2; rw [hC] at h2; omega), hC]
        omega
  · intro h0
    have hc0 : s.cursor = 0 := by omega
    have hI : (startInsert s).length = s.length + 1 ∧ (startInsert s).cursor = s.cursor ∧
        (startInsert s).append = true ∧ (startInsert s).extending = true := by
      unfold startInsert
      dsimp only
      rw [if_pos (show s.cursor = s.length by omega)]
      exact ⟨rfl, rfl, rfl, rfl⟩
    obtain ⟨hL, hC, hAp, hEx⟩ := hI
    constructor
    · rw [exitInsert_length_eq, if_pos ⟨hAp, hEx, by omega⟩, hL]
      omega
    · rw [exitInsert_cursor_eq,
        if_neg (fun h => by have h2 := h.2; rw [hC] at h2; omega), hC]

/-- Witness for C2: the virtual slot opened on empty content is fully
reversible. -/
theorem c2_virtual_slot_reversible_witness :
    (0 : Int) ≤ emptyDemoState.length ∧
    emptyDemoState.cursor = max emptyDemoState.length 1 - 1 ∧
    ((exitInsert (startAppend emptyDemoState)).length = emptyDemoState.length ∧
      (exitInsert (startAppend emptyDemoState)).cursor = emptyDemoState.cursor) ∧
    (emptyDemoState.length = 0 →
      (exitInsert (startInsert emptyDemoState)).length = emptyDemoState.length ∧
      (exitInsert (startInsert emptyDemoState)).cursor = emptyDemoState.cursor) := by
  exact ⟨by decide, by decide,
    (c2_virtual_slot_reversible emptyDemoState (by decide) (by decide)).1,
    (c2_virtual_slot_reversible emptyDemoState (by decide) (by decide)).2⟩

/-- C7: `increment` replaces the byte at the cursor with
`(old + max(count,1) mod 256) mod 256` and `decrement` with
`(old - max(count,1) mod 256) mod 256`, in wrapping byte arithmetic; neither
moves the cursor, and on empty content the write establishes length 1. -/
theorem c7_increment_decrement (s : WState) (count : Int) (hc0 : 0 ≤ s.cursor) :
    (increment s count).content =
      goSet s.content s.cursor
        ((readByte s.content s.cursor + gomod (max count 1) 256) % 256) ∧
    (increment s count).length = (if s.length = 0 then 1 else s.length) ∧
    (increment s count).cursor = s.cursor ∧
    (decrement s count).content =
      goSet s.content s.cursor
        ((readByte s.content s.cursor - gomod (max count 1) 256) % 256) ∧
    (decrement s count).length = (if s.length = 0 then 1 else s.length) ∧
    (decrement s count).cursor = s.cursor := by
  have hbs : ((List.range 1).map fun (i : Nat) =>
      readByte s.content (s.cursor + (i : Int))).getD 0 0 = readByte s.content s.cursor := by
    rw [getD_range_map 1 _ 0 (by norm_num)]
    norm_num
  unfold increment decrement goReadBytes
  rw [if_neg (not_lt.2 hc0)]
  dsimp only
  rw [hbs]
  unfold wreplace
  dsimp only
  refine ⟨?_, ?_, ?_, ?_, ?_, ?_⟩ <;> split_ifs <;> first | rfl | (dsimp only; omega)

/-- Witness for C7: incrementing byte `0xFF` by 1 wraps to `0x00`, and
decrementing `0x00` by 1 wraps to `0xFF`, on a concrete one-byte state. -/
theorem c7_increment_decrement_witness :
    (0 : Int) ≤ ({ emptyDemoState with content := [255], length := 1 } : WState).cursor ∧
    (increment { emptyDemoState with content := [255], length := 1 } 1).content = [0] ∧
    (decrement { emptyDemoState with content := [0], length := 1 } 1).content = [255] := by
  refine ⟨by decide, ?_, ?_⟩
  · have h := (c7_increment_decrement
      { emptyDemoState with content := [255], length := 1 } 1 (by decide)).1
    rw [h]
    decide
  · have h := (c7_increment_decrement
      { emptyDemoState with content := [0], length := 1 } 1 (by decide)).2.2.2.1
    rw [h]
    decide

/-- C8: with a non-empty jump stack, `jumpBack` restores exactly the most
recently pushed (cursor, viewportOffset) pair and removes it from the stack,
changing nothing else; with an empty stack it changes nothing. -/
theorem c8_jumpBack_pops_last (s : WState) :
    (s.stack = [] → jumpBack s = s) ∧
    (∀ p, s.stack.getLast? = some p →
      jumpBack s = { s with cursor := p.1, offset := p.2, stack := s.stack.dropLast }) := by
  constructor
  · intro h
    unfold jumpBack
    split
    · rfl
    · rename_i p heq
      rw [h] at heq
      simp at heq
  · intro p hp
    unfold jumpBack
    split
    · rename_i heq
      rw [hp] at heq
      simp at heq
    · rename_i q heq
      rw [hp] at heq
      injection heq with heq
      rw [heq]

/-- Witness for C8: popping the top of a concrete two-entry jump stack. -/
theorem c8_jumpBack_pops_last_witness :
    stackDemoState.stack.getLast? = some ((2 : Int), (0 : Int)) ∧
    jumpBack stackDemoState =
      { stackDemoState with cursor := 2, offset := 0, stack := stackDemoState.stack.dropLast } :=
  ⟨by decide, (c8_jumpBack_pops_last stackDemoState).2 (2, 0) (by decide)⟩

/-- C10: a `SwitchFocus` command toggles the text-focus flag, cancels any
pending nibble (clearing the pending flag, and the stashed byte when one was
pending), and leaves content, length, cursor and viewport offset unchanged. -/
theorem c10_switchFocus_frame (e : Event) (s : WState) (het : e.etype = .switchFocus) :
    (runStep e s).focusText = !s.focusText ∧
    (runStep e s).pending = false ∧
    (runStep e s).pendingByte = (if s.pending = true then 0 else s.pendingByte) ∧
    (runStep e s).content = s.content ∧
    (runStep e s).length = s.length ∧
    (runStep e s).cursor = s.cursor ∧
    (runStep e s).offset = s.offset := by
  have hsw : dispatch e s = switchFocus s := by
    unfold dispatch
    rw [het]
  have hfields : (switchFocus s).focusText = !s.focusText ∧
      (switchFocus s).pending = false ∧
      (switchFocus s).pendingByte = (if s.pending = true then 0 else s.pendingByte) ∧
      (switchFocus s).content = s.content ∧ (switchFocus s).length = s.length ∧
      (switchFocus s).cursor = s.cursor ∧ (switchFocus s).offset = s.offset := by
    unfold switchFocus
    dsimp only
    split_ifs with hp <;>
      exact ⟨rfl, by simp [hp], by simp [hp], rfl, rfl, rfl, rfl⟩
  have hfocus : (runStep e s).focusText = (dispatch e s).focusText := by
    unfold runStep; dsimp only; split_ifs <;> rfl
  have hpend : (runStep e s).pending = (dispatch e s).pending := by
    unfold runStep; dsimp only; split_ifs <;> rfl
  have hpb : (runStep e s).pendingByte = (dispatch e s).pendingByte := by
    unfold runStep; dsimp only; split_ifs <;> rfl
  have hcont : (runStep e s).content = (dispatch e s).content := by
    unfold runStep; dsimp only; split_ifs <;> rfl
  have hlen : (runStep e s).length = (dispatch e s).length := by
    unfold runStep; dsimp only; split_ifs <;> rfl
  have hcur : (runStep e s).cursor = (dispatch e s).cursor := by
    unfold runStep; dsimp only; split_ifs <;> rfl
  have hoff : (runStep e s).offset = (dispatch e s).offset := by
    unfold runStep; dsimp only; split_ifs <;> rfl
  rw [hfocus, hpend, hpb, hcont, hlen, hcur, hoff, hsw]
  exact hfields

/-- Witness for C10: switching focus on a concrete state with a pending
nibble. -/
theorem c10_switchFocus_frame_witness :
    (({ etype := .switchFocus } : Event).etype = EType.switchFocus) ∧
    (runStep { etype := .switchFocus } { navDemoState with pending := true, pendingByte := 160 }).focusText = !({ navDemoState with pending := true, pendingByte := 160 } : WState).focusText ∧
    (runStep { etype := .switchFocus } { navDemoState with pending := true, pendingByte := 160 }).pending = false :=
  ⟨rfl,
    (c10_switchFocus_frame { etype := .switchFocus }
      { navDemoState with pending := true, pendingByte := 160 } rfl).1,
    (c10_switchFocus_frame { etype := .switchFocus }
      { navDemoState with pending := true, pendingByte := 160 } rfl).2.1⟩

/-- C9: on a state satisfying the data model (`0 ≤ cursor < max(length,1)` and
`visualStart` either the no-selection sentinel `-1` or a nonnegative anchor),
resolving an `Absolute`, `Relative` or `End` position always succeeds with an
offset inside `[0, max(length,1)-1]`; resolving a `VisualStart` or `VisualEnd`
position fails exactly when `visualStart = -1`, and otherwise succeeds with an
offset inside the same interval. -/
theorem c9_positionToOffset_ranges (s : WState)
    (hc0 : 0 ≤ s.cursor) (hcl : s.cursor < max s.length 1)
    (hvs : s.visualStart = -1 ∨ 0 ≤ s.visualStart) :
    (∀ off, ∃ v, positionToOffset s (.absolute off) = some v ∧
        0 ≤ v ∧ v ≤ max s.length 1 - 1) ∧
    (∀ off, ∃ v, positionToOffset s (.relative off) = some v ∧
        0 ≤ v ∧ v ≤ max s.length 1 - 1) ∧
    (∀ off, ∃ v, positionToOffset s (.atEnd off) = some v ∧
        0 ≤ v ∧ v ≤ max s.length 1 - 1) ∧
    (∀ off, positionToOffset s (.visualStart off) = none ↔ s.visualStart = -1) ∧
    (∀ off, positionToOffset s (.visualEnd off) = none ↔ s.visualStart = -1) ∧
    (∀ off, s.visualStart ≠ -1 → ∃ v, positionToOffset s (.visualStart off) = some v ∧
        0 ≤ v ∧ v ≤ max s.length 1 - 1) ∧
    (∀ off, s.visualStart ≠ -1 → ∃ v, positionToOffset s (.visualEnd off) = some v ∧
        0 ≤ v ∧ v ≤ max s.length 1 - 1) := by
  unfold positionToOffset
  refine ⟨fun off => ⟨_, rfl, ?_, ?_⟩, fun off => ⟨_, rfl, ?_, ?_⟩,
    fun off => ⟨_, rfl, ?_, ?_⟩, fun off => ?_, fun off => ?_,
    fun off hne => ?_, fun off hne => ?_⟩
  · omega
  · omega
  · omega
  · omega
  · omega
  · omega
  · split_ifs with h
    · simp only [true_iff]
      omega
    · simp only [false_iff]
      omega
  · split_ifs with h
    · simp only [true_iff]
      omega
    · simp only [false_iff]
      omega
  · dsimp only
    rw [if_neg (by omega)]
    exact ⟨_, rfl, by omega, by omega⟩
  · dsimp only
    rw [if_neg (by omega)]
    exact ⟨_, rfl, by omega, by omega⟩

/-- Witness for C9: resolving concrete positions on a concrete state with no
active selection. -/
theorem c9_positionToOffset_ranges_witness :
    (0 : Int) ≤ navDemoState.cursor ∧
    navDemoState.cursor < max navDemoState.length 1 ∧
    (navDemoState.visualStart = -1 ∨ 0 ≤ navDemoState.visualStart) ∧
    (∃ v, positionToOffset navDemoState (.absolute 7) = some v ∧
      0 ≤ v ∧ v ≤ max navDemoState.length 1 - 1) ∧
    (positionToOffset navDemoState (.visualStart 0) = none ↔
      navDemoState.visualStart = -1) :=
  ⟨by decide, by decide, Or.inl rfl,
    (c9_positionToOffset_ranges navDemoState (by decide) (by decide) (Or.inl rfl)).1 7,
    (c9_positionToOffset_ranges navDemoState (by decide) (by decide)
      (Or.inl rfl)).2.2.2.1 0⟩

/-- C5: when the pattern has no occurrence within the bounded scan window
(forward: starting one byte after the cursor; backward: ending at the cursor;
each sized `max(height*width*50, len(pattern)*500)` bytes), executing the
search leaves both cursor and viewport offset unchanged. -/
theorem c5_search_no_match (s : WState) (t : List Int) (hc0 : 0 ≤ s.cursor)
    (hf : bIndex (forwardWindow s t) t = -1)
    (hb : bLastIndex (backwardWindow s t) t = -1) :
    (searchForward s t).cursor = s.cursor ∧ (searchForward s t).offset = s.offset ∧
    (searchBackward s t).cursor = s.cursor ∧ (searchBackward s t).offset = s.offset := by
  unfold forwardWindow searchSize at hf
  unfold backwardWindow searchSize at hb
  have h1 : (searchForward s t).cursor = s.cursor ∧ (searchForward s t).offset = s.offset := by
    unfold searchForward goReadBytes
    dsimp only
    rw [if_neg (by omega)]
    dsimp only
    rw [hf]
    rw [if_neg (by norm_num)]
    exact ⟨rfl, rfl⟩
  have h2 : (searchBackward s t).cursor = s.cursor ∧
      (searchBackward s t).offset = s.offset := by
    unfold searchBackward goReadBytes
    dsimp only
    rw [if_neg (not_lt.2 (le_max_left 0 _))]
    dsimp only
    rw [hb]
    rw [if_neg (by norm_num)]
    exact ⟨rfl, rfl⟩
  exact ⟨h1.1, h1.2, h2.1, h2.2⟩

set_option maxRecDepth 100000 in
/-- Witness for C5: a one-byte pattern absent from the scan windows of a
concrete empty-content state. -/
theorem c5_search_no_match_witness :
    (0 : Int) ≤ emptyDemoState.cursor ∧
    bIndex (forwardWindow emptyDemoState [1]) [1] = -1 ∧
    bLastIndex (backwardWindow emptyDemoState [1]) [1] = -1 ∧
    ((searchForward emptyDemoState [1]).cursor = emptyDemoState.cursor ∧
      (searchForward emptyDemoState [1]).offset = emptyDemoState.offset ∧
      (searchBackward emptyDemoState [1]).cursor = emptyDemoState.cursor ∧
      (searchBackward emptyDemoState [1]).offset = emptyDemoState.offset) :=
  ⟨by decide, by decide, by decide,
    c5_search_no_match emptyDemoState [1] (by decide) (by decide) (by decide)⟩

/-- C3: in Insert mode with no pending nibble and hex (non-text) focus,
feeding the rune `'a'` and then the rune `'f'` inserts exactly one byte of
value `0xAF` at the cursor, advances the cursor by 1, increments the length by
1, and leaves no nibble pending. -/
theorem c3_nibble_assembly (s : WState) (hp : s.pending = false)
    (hf : s.focusText = false) :
    (insertRune (insertRune s .insert 'a') .insert 'f').content =
      goInsertList s.content s.cursor 175 ∧
    (insertRune (insertRune s .insert 'a') .insert 'f').cursor = s.cursor + 1 ∧
    (insertRune (insertRune s .insert 'a') .insert 'f').length = s.length + 1 ∧
    (insertRune (insertRune s .insert 'a') .insert 'f').pending = false := by
  have h1 : insertRune s .insert 'a' =
      { s with pending := true, pendingByte := (('a'.toNat : Int) - 97 + 10) * 16 } := by
    unfold insertRune
    rw [if_pos (Or.inl rfl), if_neg (by rw [hf]; simp), if_neg (by decide),
      if_pos (by decide)]
    unfold insertByte
    rw [if_neg (by rw [hp]; simp)]
  rw [h1]
  have h2 : Int.lor ((('a'.toNat : Int) - 97 + 10) * 16) (('f'.toNat : Int) - 97 + 10) =
      175 := by decide
  unfold insertRune
  rw [if_pos (Or.inl rfl), if_neg (by rw [hf]; simp), if_neg (by decide),
    if_pos (by decide)]
  unfold insertByte
  rw [if_pos rfl]
  dsimp only
  rw [h2]
  unfold winsert
  dsimp only
  rw [scrollDownAdj_content, scrollDownAdj_cursor, scrollDownAdj_length]
  exact ⟨rfl, rfl, rfl, rfl⟩

/-- Witness for C3: the two keystrokes on a concrete non-empty state insert
`0xAF` at the cursor. -/
theorem c3_nibble_assembly_witness :
    navDemoState.pending = false ∧ navDemoState.focusText = false ∧
    ((insertRune (insertRune navDemoState .insert 'a') .insert 'f').content =
        goInsertList navDemoState.content navDemoState.cursor 175 ∧
      (insertRune (insertRune navDemoState .insert 'a') .insert 'f').cursor =
        navDemoState.cursor + 1 ∧
      (insertRune (insertRune navDemoState .insert 'a') .insert 'f').length =
        navDemoState.length + 1 ∧
      (insertRune (insertRune navDemoState .insert 'a') .insert 'f').pending = false) :=
  ⟨rfl, rfl, c3_nibble_assembly navDemoState rfl rfl⟩

/-- Counterexample to C6 as stated: on `jumpZeroState` the scan finds the
complete digit run `"0"`, whose parsed value 0 is an in-range offset
(`0 < length`), yet `jumpTo` neither pushes the jump stack nor moves — the
code additionally requires the parsed value to be strictly positive. -/
theorem c6_jumpTo_counterexample :
    jumpScan jumpZeroState = some 0 ∧ (0 : Int) < jumpZeroState.length ∧
    jumpTo jumpZeroState = jumpZeroState ∧
    (jumpTo jumpZeroState).stack = jumpZeroState.stack :=
  ⟨by decide, by decide, by decide, by decide⟩

/-- C6 (amended): when the scan near the cursor finds a complete digit run
whose parsed value `v` satisfies `0 < v < length`, `jumpTo` pushes the current
(cursor, viewportOffset) onto the jump stack, sets the cursor to `v`, and sets
the viewport one third of a screen above the target row. -/
theorem c6_jumpTo_found (s : WState) (v : Int) (h : jumpScan s = some v)
    (h0 : 0 < v) (hl : v < s.length) :
    jumpTo s = { s with stack := s.stack ++ [(s.cursor, s.offset)], cursor := v, offset := max (v - gomod v s.width - max (godiv s.height 3) 0 * s.width) 0 } := by
  unfold jumpTo
  rw [h]
  dsimp only
  rw [if_neg (by omega)]

/-- Witness for C6: a concrete jump to offset 51. -/
theorem c6_jumpTo_found_witness :
    jumpScan jumpDemoState = some 51 ∧ (0 : Int) < 51 ∧
    (51 : Int) < jumpDemoState.length ∧
    jumpTo jumpDemoState =
      { jumpDemoState with stack := jumpDemoState.stack ++ [(jumpDemoState.cursor, jumpDemoState.offset)], cursor := 51, offset := max (51 - gomod 51 jumpDemoState.width - max (godiv jumpDemoState.height 3) 0 * jumpDemoState.width) 0 } :=
  ⟨by decide, by decide, by decide,
    c6_jumpTo_found jumpDemoState 51 (by decide) (by decide) (by decide)⟩

/-! History-preservation facts: no window method other than `undo`/`redo`
touches the history field, and those two only move its cursor. -/

theorem scrollUpAdj_hist (s : WState) : (scrollUpAdj s).hist = s.hist := by
  unfold scrollUpAdj; split_ifs <;> rfl

theorem scrollDownAdj_hist (s : WState) : (scrollDownAdj s).hist = s.hist := by
  unfold scrollDownAdj; split_ifs <;> rfl

theorem collapseSlotLt_hist (s : WState) : (collapseSlotLt s).hist = s.hist := by
  unfold collapseSlotLt; split_ifs <;> rfl

theorem collapseSlotNe_hist (s : WState) : (collapseSlotNe s).hist = s.hist := by
  unfold collapseSlotNe; split_ifs <;> rfl

theorem cursorUp_hist (s : WState) (c : Int) : (cursorUp s c).hist = s.hist := by
  unfold cursorUp; rw [collapseSlotLt_hist, scrollUpAdj_hist]

theorem cursorDown_hist (s : WState) (c : Int) : (cursorDown s c).hist = s.hist := by
  unfold cursorDown; rw [scrollDownAdj_hist]

theorem cursorLeft_hist (s : WState) (c : Int) : (cursorLeft s c).hist = s.hist := by
  unfold cursorLeft; rw [collapseSlotLt_hist]

theorem cursorRight_hist (s : WState) (m : Mode) (c : Int) :
    (cursorRight s m c).hist = s.hist := by
  unfold cursorRight; dsimp only; split_ifs <;> rfl

theorem cursorPrev_hist (s : WState) (c : Int) : (cursorPrev s c).hist = s.hist := by
  unfold cursorPrev; rw [collapseSlotNe_hist, scrollUpAdj_hist]

theorem cursorNext_hist (s : WState) (m : Mode) (c : Int) :
    (cursorNext s m c).hist = s.hist := by
  unfold cursorNext; dsimp only; rw [scrollDownAdj_hist]; split_ifs <;> rfl

theorem cursorHead_hist (s : WState) (c : Int) : (cursorHead s c).hist = s.hist := rfl

theorem cursorEnd_hist (s : WState) (c : Int) : (cursorEnd s c).hist = s.hist := by
  unfold cursorEnd; rw [scrollDownAdj_hist]

theorem cursorGotoPos_hist (s : WState) (p : Position) :
    (cursorGotoPos s p).hist = s.hist := by
  unfold cursorGotoPos
  split
  · rfl
  · dsimp only; split_ifs <;> rfl

theorem cursorGoto_hist (s : WState) (e : Event) : (cursorGoto s e).hist = s.hist := by
  unfold cursorGoto
  split
  · rfl
  · split
    · exact cursorGotoPos_hist _ _
    · split
      · exact cursorGotoPos_hist _ _
      · rfl

theorem scrollUp_hist (s : WState) (c : Int) : (scrollUp s c).hist = s.hist := by
  unfold scrollUp; dsimp only; split_ifs <;> rfl

theorem scrollDown_hist (s : WState) (c : Int) : (scrollDown s c).hist = s.hist := by
  unfold scrollDown; dsimp only; split_ifs <;> rfl

theorem pageUp_hist (s : WState) : (pageUp s).hist = s.hist := by
  unfold pageUp; dsimp only; split_ifs <;> rfl

theorem pageDown_hist (s : WState) : (pageDown s).hist = s.hist := by
  unfold pageDown; dsimp only; split_ifs <;> rfl

theorem pageUpHalf_hist (s : WState) : (pageUpHalf s).hist = s.hist := by
  unfold pageUpHalf; dsimp only; split_ifs <;> rfl

theorem pageDownHalf_hist (s : WState) : (pageDownHalf s).hist = s.hist := by
  unfold pageDownHalf; dsimp only; split_ifs <;> rfl

theorem jumpTo_hist (s : WState) : (jumpTo s).hist = s.hist := by
  unfold jumpTo
  split
  · rfl
  · split_ifs <;> rfl

theorem jumpBack_hist (s : WState) : (jumpBack s).hist = s.hist := by
  unfold jumpBack; split <;> rfl

theorem deleteByteLoop_hist (n : Nat) (s : WState) :
    (deleteByteLoop n s).hist = s.hist := by
  induction n generalizing s with
  | zero => rfl
  | succ n ih =>
    unfold deleteByteLoop
    dsimp only
    rw [ih]
    split_ifs <;> rfl

theorem deleteByte_hist (s : WState) (c : Int) : (deleteByte s c).hist = s.hist := by
  unfold deleteByte
  split_ifs
  · rfl
  · rw [deleteByteLoop_hist]

theorem deletePrevByteLoop_hist (n : Nat) (s : WState) :
    (deletePrevByteLoop n s).hist = s.hist := by
  induction n generalizing s with
  | zero => rfl
  | succ n ih =>
    unfold deletePrevByteLoop
    rw [ih]
    rfl

theorem deletePrevByte_hist (s : WState) (c : Int) :
    (deletePrevByte s c).hist = s.hist := by
  unfold deletePrevByte; rw [deletePrevByteLoop_hist]

theorem increment_hist (s : WState) (c : Int) : (increment s c).hist = s.hist := by
  unfold increment
  split
  · rfl
  · dsimp only; split_ifs <;> rfl

theorem decrement_hist (s : WState) (c : Int) : (decrement s c).hist = s.hist := by
  unfold decrement
  split
  · rfl
  · dsimp only; split_ifs <;> rfl

theorem startInsert_hist (s : WState) : (startInsert s).hist = s.hist := by
  unfold startInsert; dsimp only; split_ifs <;> rfl

theorem startInsertHead_hist (s : WState) : (startInsertHead s).hist = s.hist := by
  unfold startInsertHead; rw [startInsert_hist]; rfl

theorem startAppend_hist (s : WState) : (startAppend s).hist = s.hist := by
  unfold startAppend; rw [scrollDownAdj_hist]; dsimp only; split_ifs <;> rfl

theorem startAppendEnd_hist (s : WState) : (startAppendEnd s).hist = s.hist := by
  unfold startAppendEnd; rw [startAppend_hist, cursorEnd_hist]

theorem exitInsert_hist (t : WState) : (exitInsert t).hist = t.hist := by
  unfold exitInsert; dsimp only; split_ifs <;> rfl

theorem insertByte_hist (s : WState) (m : Mode) (b : Int) :
    (insertByte s m b).hist = s.hist := by
  unfold insertByte
  by_cases hp : s.pending = true
  · rw [if_pos hp]
    dsimp only
    rw [scrollDownAdj_hist]
    cases m
    · rfl
    · rfl
    · dsimp only
      split_ifs <;> first | rfl | (rw [exitInsert_hist]; rfl)
    · rfl
    · rfl
  · rw [if_neg hp]

theorem insertByteFold_hist (l : List UInt8) (m : Mode) (s : WState) :
    ((l.foldl (fun s b =>
      insertByte (insertByte s m (godiv ((b.toNat : Int)) 16)) m
        (gomod ((b.toNat : Int)) 16)) s)).hist = s.hist := by
  induction l generalizing s with
  | nil => rfl
  | cons b l ih =>
    rw [List.foldl_cons, ih, insertByte_hist, insertByte_hist]

theorem insertRune_hist (s : WState) (m : Mode) (ch : Char) :
    (insertRune s m ch).hist = s.hist := by
  unfold insertRune
  split_ifs
  · exact insertByteFold_hist _ _ _
  · exact insertByte_hist _ _ _
  · exact insertByte_hist _ _ _
  · rfl
  · rfl

theorem backspace_hist (s : WState) : (backspace s).hist = s.hist := by
  unfold backspace; split_ifs <;> rfl

theorem switchVisualEnd_hist (s : WState) : (switchVisualEnd s).hist = s.hist := by
  unfold switchVisualEnd; dsimp only; split_ifs <;> rfl

theorem searchForward_hist (s : WState) (t : List Int) :
    (searchForward s t).hist = s.hist := by
  unfold searchForward
  dsimp only
  split
  · rfl
  · split_ifs <;> rfl

theorem searchBackward_hist (s : WState) (t : List Int) :
    (searchBackward s t).hist = s.hist := by
  unfold searchBackward
  dsimp only
  split
  · rfl
  · split_ifs <;> rfl

theorem search_hist (s : WState) (t : List Int) (fwd : Bool) :
    (search s t fwd).hist = s.hist := by
  unfold search
  split_ifs
  · exact searchForward_hist _ _
  · exact searchBackward_hist _ _

theorem switchFocus_hist (s : WState) : (switchFocus s).hist = s.hist := by
  unfold switchFocus; dsimp only; split_ifs <;> rfl

/-- Every dispatch arm except `Undo`/`Redo` leaves the history untouched. -/
theorem dispatch_hist (e : Event) (s : WState) (hu : e.etype ≠ .undo)
    (hr : e.etype ≠ .redo) : (dispatch e s).hist = s.hist := by
  obtain ⟨et, m, cnt, r, arg, rng⟩ := e
  unfold dispatch
  cases et
  case cursorUp => exact cursorUp_hist _ _
  case cursorDown => exact cursorDown_hist _ _
  case cursorLeft => exact cursorLeft_hist _ _
  case cursorRight => exact cursorRight_hist _ _ _
  case cursorPrev => exact cursorPrev_hist _ _
  case cursorNext => exact cursorNext_hist _ _ _
  case cursorHead => exact cursorHead_hist _ _
  case cursorEnd => exact cursorEnd_hist _ _
  case cursorGoto => exact cursorGoto_hist _ _
  case scrollUp => exact scrollUp_hist _ _
  case scrollDown => exact scrollDown_hist _ _
  case pageUp => exact pageUp_hist _
  case pageDown => exact pageDown_hist _
  case pageUpHalf => exact pageUpHalf_hist _
  case pageDownHalf => exact pageDownHalf_hist _
  case pageTop => rfl
  case pageEnd => rfl
  case jumpTo => exact jumpTo_hist _
  case jumpBack => exact jumpBack_hist _
  case deleteByte => exact deleteByte_hist _ _
  case deletePrevByte => exact deletePrevByte_hist _ _
  case increment => exact increment_hist _ _
  case decrement => exact decrement_hist _ _
  case startInsert => exact startInsert_hist _
  case startInsertHead => exact startInsertHead_hist _
  case startAppend => exact startAppend_hist _
  case startAppendEnd => exact startAppendEnd_hist _
  case startReplaceByte => rfl
  case startReplace => rfl
  case exitInsert => exact exitInsert_hist _
  case rune => exact insertRune_hist _ _ _
  case backspace => exact backspace_hist _
  case delete => exact deleteByte_hist _ _
  case startVisual => rfl
  case switchVisualEnd => exact switchVisualEnd_hist _
  case exitVisual => rfl
  case switchFocus => exact switchFocus_hist _
  case undo => exact absurd rfl hu
  case redo => exact absurd rfl hr
  case executeSearch => exact search_hist _ _ _
  case nextSearch => exact search_hist _ _ _
  case previousSearch => exact search_hist _ _ _

theorem histUndo_entries (h : History) (cp : List Int × Int × Int) (h' : History)
    (heq : histUndo h = some (cp, h')) : h'.entries = h.entries := by
  unfold histUndo at heq
  split_ifs at heq
  split at heq
  · cases heq
  · injection heq with heq
    rw [show h' = { h with index := h.index - 1 } from (congrArg Prod.snd heq).symm]

theorem histRedo_entries (h : History) (cp : List Int × Int × Int) (h' : History)
    (heq : histRedo h = some (cp, h')) : h'.entries = h.entries := by
  unfold histRedo at heq
  split at heq
  · cases heq
  · injection heq with heq
    rw [show h' = { h with index := h.index + 1 } from (congrArg Prod.snd heq).symm]

theorem undoLoop_entries (n : Nat) (s : WState) :
    (undoLoop n s).hist.entries = s.hist.entries := by
  induction n generalizing s with
  | zero => rfl
  | succ n ih =>
    unfold undoLoop
    split
    · rfl
    · rename_i cp h' heq
      rw [ih]
      exact histUndo_entries s.hist cp h' heq

theorem redoLoop_entries (n : Nat) (s : WState) :
    (redoLoop n s).hist.entries = s.hist.entries := by
  induction n generalizing s with
  | zero => rfl
  | succ n ih =>
    unfold redoLoop
    split
    · rfl
    · rename_i cp h' heq
      rw [ih]
      exact histRedo_entries s.hist cp h' heq

/-- Counterexample to C4 as stated: `SwitchFocus` processed in Normal mode
pushes a checkpoint (the history grows by one entry) although it does not
mutate the content — the push condition tracks the change counter, which the
focus switch bumps without any content mutation. -/
theorem c4_checkpoint_counterexample :
    (runStep switchFocusEvent navDemoState).hist.entries.length =
      navDemoState.hist.entries.length + 1 ∧
    (runStep switchFocusEvent navDemoState).content = navDemoState.content :=
  ⟨by decide, by decide⟩

/-- C4 (amended): for every command processed in Normal mode other than Undo,
Redo and ExitInsert, a checkpoint is pushed to History after the command if
and only if the command advanced the change counter (which every content
mutation does, but which a focus switch also does without mutating content);
Undo and Redo never push a checkpoint. -/
theorem c4_checkpoint_policy (e : Event) (s : WState) :
    (e.mode = .normal → e.etype ≠ .undo → e.etype ≠ .redo → e.etype ≠ .exitInsert →
      ((runStep e s).hist.entries.length = s.hist.entries.length + 1 ↔
        (dispatch e s).changedTick ≠ s.changedTick)) ∧
    ((e.etype = .undo ∨ e.etype = .redo) →
      (runStep e s).hist.entries.length = s.hist.entries.length) := by
  constructor
  · intro hm hu hr hx
    have hdh := dispatch_hist e s hu hr
    unfold runStep
    dsimp only
    rw [if_neg (not_or.mpr ⟨hu, hr⟩)]
    by_cases hch : s.changedTick = (dispatch e s).changedTick
    · have hb : (s.changedTick != (dispatch e s).changedTick) = false := by
        simp [hch]
      rw [hb]
      rw [if_neg (not_or.mpr ⟨fun h1 => by simpa using h1.2, fun h2 => hx h2.1⟩)]
      rw [if_neg (fun h => h.1 hm)]
      show (dispatch e s).hist.entries.length = s.hist.entries.length + 1 ↔
        (dispatch e s).changedTick ≠ s.changedTick
      rw [hdh]
      constructor
      · intro h
        omega
      · intro h
        exact absurd hch.symm h
    · have hb : (s.changedTick != (dispatch e s).changedTick) = true :=
        bne_iff_ne.mpr hch
      rw [hb]
      rw [if_pos (Or.inl ⟨hm, rfl⟩)]
      show (histPush (dispatch e s).hist (dispatch e s).content (dispatch e s).offset
          (dispatch e s).cursor).entries.length = s.hist.entries.length + 1 ↔
        (dispatch e s).changedTick ≠ s.changedTick
      unfold histPush
      dsimp only
      rw [List.length_append, hdh]
      simp only [List.length_singleton]
      constructor
      · intro _
        exact fun h => hch h.symm
      · intro _
        trivial
  · intro h
    unfold runStep
    dsimp only
    rw [if_pos h]
    show (dispatch e s).hist.entries.length = s.hist.entries.length
    obtain ⟨et, m, cnt, r, arg, rng⟩ := e
    rcases h with h | h
    · cases h
      unfold dispatch
      dsimp only
      split_ifs
      · unfold undo
        rw [undoLoop_entries]
      · rfl
    · cases h
      unfold dispatch
      dsimp only
      split_ifs
      · unfold redo
        rw [redoLoop_entries]
      · rfl

/-- Witness for C4 (amended): a Normal-mode increment pushes exactly when the
change counter advanced, and a Normal-mode undo pushes nothing. -/
theorem c4_checkpoint_policy_witness :
    ((runStep incrementEvent navDemoState).hist.entries.length =
        navDemoState.hist.entries.length + 1 ↔
      (dispatch incrementEvent navDemoState).changedTick ≠
        navDemoState.changedTick) ∧
    (runStep undoEvent navDemoState).hist.entries.length =
      navDemoState.hist.entries.length :=
  ⟨(c4_checkpoint_policy incrementEvent navDemoState).1 rfl (by decide) (by decide)
      (by decide),
    (c4_checkpoint_policy undoEvent navDemoState).2 (Or.inl rfl)⟩

end Bed
